import Mathlib

/-!
# go-r2d2: DTMF message extraction pipeline

A shallow embedding of `src/r2d2.go` and `src/goertzel.go`.

Every stage of the pipeline is a Go function running an endless `for` loop that
receives one value from its input channel per iteration and may send one value
on its output channel.  A stage is embedded as

* its loop state (the local variables declared before the `for`),
* a body function: one iteration of the loop, returning the new state and the
  value sent on `out` in that iteration (if any),
* the run of the loop over a finite prefix of the input channel, `runStage`,
  which records the output of every iteration, so that "the input that
  triggers an emission" is the position of a `some` in the trace.

Go strings are byte sequences.  A Go string that is valid UTF-8 is represented
by a Lean `String`; its bytes are `goBytes`.  Bytes (`uint8`) are natural
numbers below 256, with `% 256` written wherever the Go operation can overflow.
-/

namespace R2D2

/-! ## Go strings -/

/-- UTF-8 encoding of one code point, the in-memory form of a rune inside a Go string. -/
def utf8Bytes (c : Char) : List Nat :=
  if c.toNat < 0x80 then [c.toNat]
  else if c.toNat < 0x800 then [0xC0 + c.toNat / 64, 0x80 + c.toNat % 64]
  else if c.toNat < 0x10000 then
    [0xE0 + c.toNat / 4096, 0x80 + c.toNat / 64 % 64, 0x80 + c.toNat % 64]
  else
    [0xF0 + c.toNat / 262144, 0x80 + c.toNat / 4096 % 64, 0x80 + c.toNat / 64 % 64,
      0x80 + c.toNat % 64]

/-- Go `[]byte(s)`: the bytes of a string. -/
def goBytes (s : String) : List Nat := s.data.flatMap utf8Bytes

/-- Go `len(s)` on a string: its number of bytes. -/
def len (s : String) : Nat := (goBytes s).length

/-! ## Channel stages -/

/-- Run of a stage loop over the values received so far: the final loop state and, for
every received value in order, what the iteration that received it sent on `out`. -/
def runStage {σ α β : Type} (body : σ → α → σ × Option β) : σ → List α → σ × List (Option β)
  | s, [] => (s, [])
  | s, x :: xs =>
    ((runStage body (body s x).1 xs).1, (body s x).2 :: (runStage body (body s x).1 xs).2)

/-- The values that went through a channel, given the trace of its producer. -/
def sent {β : Type} (trace : List (Option β)) : List β := trace.reduceOption

/-! ## `deduplicate` (r2d2.go 166-196) -/

/-- Local variables `val` and `count` of `deduplicate`. -/
structure DedupState where
  val : String
  count : Nat
deriving DecidableEq

/-- State of `deduplicate` on entering its loop: `val = "XXX"`, `count = 0`. -/
def deduplicate_init : DedupState := ⟨"XXX", 0⟩

/-- One iteration of the loop of `deduplicate`, having received `code`. -/
def deduplicate_body (s : DedupState) (code : String) : DedupState × Option String :=
  if s.count = 3 then
    if s.val = code then
      (⟨code, 0⟩, some s.val)
    else
      (⟨code, 1⟩, some s.val)
  else
    if s.val = code then
      (⟨s.val, s.count + 1⟩, none)
    else
      (⟨code, 1⟩, none)

/-- Trace of `deduplicate` over the raw codes received, from its initial state. -/
def deduplicate (codes : List String) : List (Option String) :=
  (runStage deduplicate_body deduplicate_init codes).2

/-! ## `parse_message` (r2d2.go 200-221) -/

/-- Local variables `blanks` and `msg` of `parse_message`. -/
structure ParseState where
  blanks : Nat
  msg : String
deriving DecidableEq

/-- State of `parse_message` on entering its loop: `blanks = 0`, `msg = ""`. -/
def parse_message_init : ParseState := ⟨0, ""⟩

/-- One iteration of the loop of `parse_message`, having received `m`. -/
def parse_message_body (s : ParseState) (m : String) : ParseState × Option String :=
  if m = "" then
    if s.blanks + 1 ≥ 5 ∧ len s.msg > 0 then
      (⟨0, ""⟩, some s.msg)
    else
      (⟨s.blanks + 1, s.msg⟩, none)
  else
    (⟨s.blanks, s.msg ++ m⟩, none)

/-- Trace of `parse_message` over the symbols received, from its initial state. -/
def parse_message (ms : List String) : List (Option String) :=
  (runStage parse_message_body parse_message_init ms).2

/-! ## `dtmf_to_hex` (r2d2.go 47-61) -/

/-- The function `dtmf_to_hex`: a loop over the runes of `d` appending to `res`. -/
def dtmf_to_hex (d : String) : String :=
  d.data.foldl
    (fun res a =>
      if a = '*' then res ++ "e"
      else if a = '#' then res ++ "f"
      else res ++ String.singleton a)
    ""

/-! ## `encoding/hex` and `github.com/sigurn/crc8` -/

/-- Modelled from the spec: `reverseHexTable` of the Go standard library package
`encoding/hex`, which is not part of the repository.  It gives the value of a hexadecimal
digit byte (either case) and `0xff` for every other byte. -/
def reverseHexTable (b : Nat) : Nat :=
  if 48 ≤ b ∧ b ≤ 57 then b - 48
  else if 97 ≤ b ∧ b ≤ 102 then b - 97 + 10
  else if 65 ≤ b ∧ b ≤ 70 then b - 65 + 10
  else 0xff

/-- Modelled from the spec: the two errors of the Go standard library package
`encoding/hex`, which is not part of the repository: a byte that is no hexadecimal digit,
and an odd number of digits. -/
inductive HexError where
  | InvalidByteError (b : Nat)
  | ErrLength
deriving DecidableEq

/-- Modelled from the spec: `hex.Decode` of the Go standard library, which is not part of
the repository: the bytes decoded before the first problem, and the error if any.  Pairs
of digits are decoded left to right; a byte that is no hexadecimal digit is an
`InvalidByteError`, a single trailing digit is `ErrLength`. -/
def hexDecode : List Nat → List Nat × Option HexError
  | [] => ([], none)
  | [p] =>
    if reverseHexTable p > 0x0f then ([], some (HexError.InvalidByteError p))
    else ([], some HexError.ErrLength)
  | p :: q :: rest =>
    if reverseHexTable p > 0x0f then ([], some (HexError.InvalidByteError p))
    else if reverseHexTable q > 0x0f then ([], some (HexError.InvalidByteError q))
    else
      ((((reverseHexTable p <<< 4) % 256) ||| reverseHexTable q) :: (hexDecode rest).1,
        (hexDecode rest).2)

/-- Modelled from the spec: `hex.DecodeString` of the Go standard library:
`hex.Decode` on the bytes of the string. -/
def hexDecodeString (s : String) : List Nat × Option HexError := hexDecode (goBytes s)

/-- Modelled from the spec: the struct `crc8.Params` of `github.com/sigurn/crc8`, which is
not part of the repository: the parameters of a CRC-8 algorithm that `Checksum` reads. -/
structure Crc8Params where
  Poly : Nat
  Init : Nat
  RefIn : Bool
  RefOut : Bool
  XorOut : Nat
deriving DecidableEq

/-- Modelled from the spec: the predefined algorithm `crc8.CRC8` of
`github.com/sigurn/crc8`, which is not part of the repository: polynomial `0x07`,
initial value 0, not reflected, no final xor. -/
def CRC8 : Crc8Params := ⟨0x07, 0x00, false, false, 0x00⟩

/-- Modelled from the spec: one of the eight shift steps that `crc8.MakeTable` of
`github.com/sigurn/crc8` applies to a table index: shift left in 8 bits, and xor with the
polynomial when the bit shifted out is set. -/
def crc8_shift (poly crc : Nat) : Nat :=
  if crc &&& 0x80 ≠ 0 then ((crc <<< 1) % 256) ^^^ poly else (crc <<< 1) % 256

/-- Modelled from the spec: `crc8.MakeTable` of `github.com/sigurn/crc8`: the table of
256 bytes of the algorithm, entry `n` being `n` shifted eight times. -/
def crc8_MakeTable (params : Crc8Params) : List Nat :=
  (List.range 256).map (fun n => (crc8_shift params.Poly)^[8] n)

/-- Modelled from the spec: `crc8.Update` for an algorithm with `RefIn = false`:
table lookups, byte after byte. -/
def crc8_Update (crc : Nat) (data : List Nat) (table : List Nat) : Nat :=
  data.foldl (fun c d => table.getD (c ^^^ d) 0) crc

/-- Modelled from the spec: `crc8.Checksum` of `github.com/sigurn/crc8` for an algorithm
that is not reflected: `Init`, `Update`, then `Complete` (the final xor). -/
def crc8_Checksum (params : Crc8Params) (data : List Nat) (table : List Nat) : Nat :=
  crc8_Update params.Init data table ^^^ params.XorOut

/-! ## `decode_and_verify_crc8` (r2d2.go 226-251) -/

/-- What one iteration of the loop of `decode_and_verify_crc8` does: it sends a payload
(the bytes of the Go string sent on `out`), or goes on to the next message without
sending, or stops the program with a run-time panic (slice bounds out of range). -/
inductive DecodeOutcome where
  | emit (payload : List Nat)
  | skip
  | crash
deriving DecidableEq

/-- One iteration of the loop of `decode_and_verify_crc8`, having received `msg`. -/
def decode_and_verify_crc8_body (table : List Nat) (msg : String) : DecodeOutcome :=
  match hexDecodeString (dtmf_to_hex msg) with
  | (_, some _) => DecodeOutcome.skip
  | (decoded, none) =>
    if decoded.length = 0 then DecodeOutcome.crash
    else
      if crc8_Checksum CRC8 (decoded.take (decoded.length - 1)) table
          = decoded.getD (decoded.length - 1) 0 then
        DecodeOutcome.emit (decoded.take (decoded.length - 1))
      else DecodeOutcome.skip

/-- The loop of `decode_and_verify_crc8` over the messages received, with the table
already made: the payloads sent on `out`, and whether the loop ended in a panic. -/
def decode_loop (table : List Nat) : List String → List (List Nat) × Bool
  | [] => ([], false)
  | msg :: rest =>
    match decode_and_verify_crc8_body table msg with
    | DecodeOutcome.emit p => (p :: (decode_loop table rest).1, (decode_loop table rest).2)
    | DecodeOutcome.skip => decode_loop table rest
    | DecodeOutcome.crash => ([], true)

/-- The function `decode_and_verify_crc8`: make the table of `crc8.CRC8`, then loop. -/
def decode_and_verify_crc8 (msgs : List String) : List (List Nat) × Bool :=
  decode_loop (crc8_MakeTable CRC8) msgs

/-! ## The chain of `main` (r2d2.go 264-269), after the tone classifier -/

/-- The stages `deduplicate`, `parse_message`, `decode_and_verify_crc8` chained as in
`main`, on the raw codes produced by `dtmf_reader`. -/
def pipeline (raw : List String) : List (List Nat) × Bool :=
  decode_and_verify_crc8 (sent (parse_message (sent (deduplicate raw))))


/-- The symbols a stage received after its last emission (all of them when it has not
emitted yet), read off the received symbols and the trace of the stage on them. -/
def sinceLastEmission (ms : List String) (trace : List (Option String)) : List String :=
  ((ms.zip trace).rtakeWhile (fun p => p.2.isNone)).map Prod.fst

/-- What `dtmf_to_hex` writes for one rune of its argument. -/
def hexRune (a : Char) : Char :=
  if a = '*' then 'e' else if a = '#' then 'f' else a

/-! ## The sender side, as the round-trip property describes it -/

/-- The sixteen DTMF symbols in the order of the hexadecimal digits they stand for:
`0`-`9`, `A`-`D`, then `*` for `e` and `#` for `f`. -/
def dtmfDigits : List Char :=
  ['0', '1', '2', '3', '4', '5', '6', '7', '8', '9', 'A', 'B', 'C', 'D', '*', '#']

/-- The DTMF symbol that stands for the hexadecimal digit of value `n`. -/
def dtmfDigit (n : Nat) : Char := dtmfDigits.getD n '0'

/-- The two DTMF symbols of a byte, high digit first. -/
def encodeByte (b : Nat) : List String :=
  [String.singleton (dtmfDigit (b / 16)), String.singleton (dtmfDigit (b % 16))]

/-- The DTMF message `s1..sn` of a payload: the hexadecimal digits of the payload bytes
followed by those of its CRC-8 byte. -/
def dtmfEncode (p : List Nat) : List String :=
  (p ++ [crc8_Checksum CRC8 p (crc8_MakeTable CRC8)]).flatMap encodeByte

/-- Raw stream of the round-trip property as written: every symbol 4 times, then 5 blanks. -/
def rawSeparated (syms : List String) : List String :=
  syms.flatMap (fun s => List.replicate 4 s ++ List.replicate 5 "")

/-- Raw stream with every symbol 4 times and no blank between symbols, followed by 20
blanks (which `deduplicate` turns into 5). -/
def rawContiguous (syms : List String) : List String :=
  syms.flatMap (fun s => List.replicate 4 s) ++ List.replicate 20 ""

/-! ## `goertzel.go`

The `float32` and `float64` values of the filter bank are embedded as rational numbers and
their arithmetic as exact arithmetic: the rounding of every floating-point operation is
left out.  The functions of Go's `math` package cannot be computed exactly and are taken
as a parameter, and so is the result of converting a value that is not finite to `int`,
which Go leaves to the implementation. -/

/-- Go's `math.Pi`, `math.Sin` and `math.Cos`, as used by `InitGoertzel`, and
`IntOfNonFinite`: what `int(x)` yields when `x` is an infinity or not a number, the result
of dividing the given numerator by zero (the least `int64`, on amd64). -/
structure GoMath where
  Pi : ℚ
  Sin : ℚ → ℚ
  Cos : ℚ → ℚ
  IntOfNonFinite : ℚ → Int

/-- An executable instance of `GoMath`: π to 15 decimals, the Taylor polynomials of
degree 9 and 8, and the least `int64` for a value that is not finite.  It only serves to
evaluate the definitions on concrete inputs. -/
def goMathApprox : GoMath where
  Pi := 3141592653589793 / 1000000000000000
  Sin := fun x => x - x ^ 3 / 6 + x ^ 5 / 120 - x ^ 7 / 5040 + x ^ 9 / 362880
  Cos := fun x => 1 - x ^ 2 / 2 + x ^ 4 / 24 - x ^ 6 / 720 + x ^ 8 / 40320
  IntOfNonFinite := fun _ => -9223372036854775808

/-- Go's conversion `int(x)` of a floating-point value: truncation towards zero. -/
def goInt (x : ℚ) : Int := if 0 ≤ x then ⌊x⌋ else ⌈x⌉

/-- The struct `FrequencyBucket`. -/
structure FrequencyBucket where
  TargetFrequency : ℚ
  coeff : ℚ
  Q1 : ℚ
  Q2 : ℚ
  sine : ℚ
  cosine : ℚ
  RealPart : ℚ
  ImagPart : ℚ
  MagnitureSquared : ℚ

/-- The struct `Goertzel`. -/
structure Goertzel where
  SampleRate : Int
  BufferSize : Int
  freqBucket : List FrequencyBucket

/-- The method `ResetGoertzel`. -/
def ResetGoertzel (G : Goertzel) : Goertzel :=
  ⟨G.SampleRate, G.BufferSize,
    G.freqBucket.map (fun fB =>
      ⟨fB.TargetFrequency, fB.coeff, 0, 0, fB.sine, fB.cosine, fB.RealPart, fB.ImagPart,
        fB.MagnitureSquared⟩)⟩

/-- The bin index `k` of `InitGoertzel` (goertzel.go 87):
`int(0.5 + ((floatN * freqB.TargetFrequency) / float32(G.SampleRate)))`.  With a sample
rate of 0 the Go division yields an infinity or not a number, and its conversion is
`IntOfNonFinite`.  The rounding of the `float32` operations is left out: where the exact
sum lies within a `float32` rounding step of an integer, Go may obtain the next bin. -/
def binIndex (M : GoMath) (sampleRate bufferSize : Int) (freq : ℚ) : Int :=
  if sampleRate = 0 then M.IntOfNonFinite ((bufferSize : ℚ) * freq)
  else goInt (1 / 2 + ((bufferSize : ℚ) * freq) / sampleRate)

/-- The function `InitGoertzel`: one zero bucket per frequency, then the constants of every
bucket.  The call of `ResetGoertzel` inside the second loop zeroes `Q1` and `Q2` of all
buckets, which are zero already; it is applied once, after the loop.  The buffer size is
taken to be different from 0 (`dtmf_reader` passes 1024); Go gets coefficients that are
not numbers otherwise. -/
def InitGoertzel (M : GoMath) (sampleRate bufferSize : Int) (frequenciesList : List ℚ) :
    Goertzel :=
  ResetGoertzel
    ⟨sampleRate, bufferSize,
      (frequenciesList.map (fun freq => (⟨freq, 0, 0, 0, 0, 0, 0, 0, 0⟩ : FrequencyBucket))).map
        (fun freqB =>
          let floatN : ℚ := bufferSize
          let k : Int := binIndex M sampleRate bufferSize freqB.TargetFrequency
          let omega : ℚ := (2 * M.Pi * k) / floatN
          ⟨freqB.TargetFrequency, 2 * M.Cos omega, freqB.Q1, freqB.Q2, M.Sin omega, M.Cos omega,
            freqB.RealPart, freqB.ImagPart, freqB.MagnitureSquared⟩)⟩

/-- The method `ProcessSample`. -/
def ProcessSample (G : Goertzel) (sample : ℚ) : Goertzel :=
  ⟨G.SampleRate, G.BufferSize,
    G.freqBucket.map (fun fB =>
      ⟨fB.TargetFrequency, fB.coeff, fB.coeff * fB.Q1 - fB.Q2 + sample, fB.Q1, fB.sine,
        fB.cosine, fB.RealPart, fB.ImagPart, fB.MagnitureSquared⟩)⟩

/-- The method `CalcRealImag`. -/
def CalcRealImag (G : Goertzel) : Goertzel :=
  ⟨G.SampleRate, G.BufferSize,
    G.freqBucket.map (fun fB =>
      ⟨fB.TargetFrequency, fB.coeff, fB.Q1, fB.Q2, fB.sine, fB.cosine,
        fB.Q1 - fB.Q2 * fB.cosine, fB.Q2 * fB.sine, fB.MagnitureSquared⟩)⟩

/-- The method `calcMagnitudeSquared`. -/
def calcMagnitudeSquared (G : Goertzel) : Goertzel :=
  ⟨G.SampleRate, G.BufferSize,
    G.freqBucket.map (fun fB =>
      ⟨fB.TargetFrequency, fB.coeff, fB.Q1, fB.Q2, fB.sine, fB.cosine, fB.RealPart,
        fB.ImagPart, fB.Q1 * fB.Q1 + fB.Q2 * fB.Q2 - fB.Q1 * fB.Q2 * fB.coeff⟩)⟩

/-! ## `dtmf_reader` (r2d2.go 64-152): what it sets up before its loop -/

/-- The local `frequencies_low` of `dtmf_reader`. -/
def frequencies_low : List ℚ := [697, 770, 852, 941]

/-- The local `frequencies_high` of `dtmf_reader`. -/
def frequencies_high : List ℚ := [1209, 1336, 1477, 1633]

/-- The local `TONE_DURATION` of `dtmf_reader`, 0.10 seconds. -/
def TONE_DURATION : ℚ := 1 / 10

/-- The local `SPLITS` of `dtmf_reader`. -/
def SPLITS : Nat := 4

/-- What `dtmf_reader` holds on entering its loop: the two filter banks and `batch`, the
number of samples that every iteration asks of `ReadFloats` and feeds to both banks. -/
structure ReaderSetup where
  goert_low : Goertzel
  goert_high : Goertzel
  batch : Int

/-- The statements of `dtmf_reader` before its loop, for a stream of sample rate `sr`
(a `uint32`): `sr / SPLITS` is an integer division, its product with `TONE_DURATION` a
`float64` truncated by `int`. -/
def dtmf_reader_setup (M : GoMath) (sr : Nat) : ReaderSetup :=
  ⟨InitGoertzel M (sr : Int) (1024 * 1) frequencies_low,
    InitGoertzel M (sr : Int) (1024 * 1) frequencies_high,
    goInt (((sr / SPLITS : Nat) : ℚ) * TONE_DURATION)⟩

/-! ## `dtmf_reader` (r2d2.go 94-151): one iteration of its loop -/

/-- The map `DTMF_MAP`: low frequency, then high frequency, to symbol. -/
def DTMF_MAP : List (Int × List (Int × String)) :=
  [(697, [(1209, "1"), (1336, "2"), (1477, "3"), (1633, "A")]),
   (770, [(1209, "4"), (1336, "5"), (1477, "6"), (1633, "B")]),
   (852, [(1209, "7"), (1336, "8"), (1477, "9"), (1633, "C")]),
   (941, [(1209, "*"), (1336, "0"), (1477, "#"), (1633, "D")])]

/-- Go's index expression `m[k]` on a map: the zero value of the element type when the
key is absent. -/
def mapIndex {V : Type} (zero : V) (m : List (Int × V)) (k : Int) : V :=
  (m.lookup k).getD zero

/-- The local `LOW` of `dtmf_reader`. -/
def LOW : ℚ := 1

/-- The local `HIGH` of `dtmf_reader`, 0.1. -/
def HIGH : ℚ := 1 / 10

/-- The local `DETECT` of `dtmf_reader`, 2.5. -/
def DETECT : ℚ := 5 / 2

/-- Modelled from the spec: `floats.Sum` of `gonum.org/v1/gonum/floats`, which is not part
of the repository: the sum of the elements, added from left to right. -/
def floats_Sum (s : List ℚ) : ℚ := s.foldl (fun sum val => sum + val) 0

/-- The two selection loops of `dtmf_reader` (lines 127-131 and 133-138), which differ in
the threshold and the frequency list only: the variable starts at 0 (`var low int`) and
every magnitude above the threshold and above `avg * DETECT` overwrites it with the
frequency of its index. -/
def selectLoop (threshold : ℚ) (frequencies : List ℚ) (avg : ℚ) (mags : List ℚ) : Int :=
  mags.enum.foldl
    (fun sel nl =>
      if nl.2 > threshold ∧ nl.2 > avg * DETECT then goInt (frequencies.getD nl.1 0) else sel)
    0

/-- The value of `low` after the first selection loop, from the magnitudes `lows`. -/
def select_low (lows : List ℚ) : Int :=
  selectLoop LOW frequencies_low (floats_Sum lows / (lows.length : ℚ)) lows

/-- The value of `high` after the second selection loop, from the magnitudes `highs`. -/
def select_high (highs : List ℚ) : Int :=
  selectLoop HIGH frequencies_high (floats_Sum highs / (highs.length : ℚ)) highs

/-- The symbol `res` that an iteration of `dtmf_reader` sends (lines 140-146), from the
selected frequencies. -/
def lookupSymbol (low high : Int) : String :=
  if low > 0 ∧ high > 0 then mapIndex "" (mapIndex [] DTMF_MAP low) high else ""

/-- Lines 121-146 of `dtmf_reader`: from the magnitudes of a block to its symbol. -/
def classify (lows highs : List ℚ) : String :=
  lookupSymbol (select_low lows) (select_high highs)

/-- Modelled from the spec: the errors that the read operation of the audio source
(`ReadFloats` of `github.com/mjibson/go-dsp/wav`, not part of the repository) can report:
a single failed read, or the end of the stream. -/
inductive ReadError where
  | transient
  | terminal
deriving DecidableEq

/-- How an iteration of a Go loop ends: with the next iteration, or by leaving the loop. -/
inductive Control where
  | next
  | leave
deriving DecidableEq

/-- What `dtmf_reader` carries from one iteration to the next: the two filter banks and
the slices `lows` and `highs`. -/
structure ReaderState where
  goert_low : Goertzel
  goert_high : Goertzel
  lows : List ℚ
  highs : List ℚ

/-- The state of `dtmf_reader` on entering its loop. -/
def dtmf_reader_init (M : GoMath) (sr : Nat) : ReaderState :=
  ⟨(dtmf_reader_setup M sr).goert_low, (dtmf_reader_setup M sr).goert_high,
    List.replicate frequencies_low.length 0, List.replicate frequencies_high.length 0⟩

/-- The loops of lines 113-119: `lows[n] = float64(fb.MagnitureSquared)` for every bucket. -/
def storeMagnitudes (G : Goertzel) (mags : List ℚ) : List ℚ :=
  G.freqBucket.enum.foldl (fun acc nfb => acc.set nfb.1 nfb.2.MagnitureSquared) mags

/-- One iteration of the loop of `dtmf_reader`, given what `ReadFloats` returned: the new
state, the symbol sent on `c` if any, and how the iteration ends.  On an error the
iteration logs it and executes `continue`. -/
def dtmf_reader_body (s : ReaderState) (read : Except ReadError (List ℚ)) :
    ReaderState × Option String × Control :=
  match read with
  | Except.error _ => (s, none, Control.next)
  | Except.ok samples =>
    let goert_low :=
      calcMagnitudeSquared (samples.foldl
        (fun G sample => ProcessSample G sample) (ResetGoertzel s.goert_low))
    let goert_high :=
      calcMagnitudeSquared (samples.foldl
        (fun G sample => ProcessSample G sample) (ResetGoertzel s.goert_high))
    let lows := storeMagnitudes goert_low s.lows
    let highs := storeMagnitudes goert_high s.highs
    (⟨goert_low, goert_high, lows, highs⟩, some (classify lows highs), Control.next)

/-- Run of a loop whose iterations may leave it, over the values it would be given: the
output of every iteration that was executed. -/
def runLoop {σ α β : Type} (body : σ → α → σ × Option β × Control) :
    σ → List α → List (Option β)
  | _, [] => []
  | s, x :: xs =>
    match (body s x).2.2 with
    | Control.next => (body s x).2.1 :: runLoop body (body s x).1 xs
    | Control.leave => [(body s x).2.1]

/-- The loop of `dtmf_reader` over the results of its successive reads. -/
def dtmf_reader (M : GoMath) (sr : Nat) (reads : List (Except ReadError (List ℚ))) :
    List (Option String) :=
  runLoop dtmf_reader_body (dtmf_reader_init M sr) reads

/-- The detect-factor test as the specification words it: the magnitude at index `n`
exceeds the mean of the magnitudes times 2.5. -/
def exceedsMean (mags : List ℚ) (n : Nat) : Prop :=
  mags.getD n 0 > mags.sum / (mags.length : ℚ) * (5 / 2)

/-- The test of the selection rule as the specification words it: the magnitude at index
`n` exceeds the threshold and exceeds the mean of the magnitudes times 2.5. -/
def qualifies (threshold : ℚ) (mags : List ℚ) (n : Nat) : Prop :=
  mags.getD n 0 > threshold ∧ exceedsMean mags n

/-- A selection in which the strongest candidate wins, for comparison with `selectLoop`:
a magnitude that passes the same two tests replaces the selection only if nothing is
selected yet or it is greater than the magnitude selected so far. -/
def selectStrongest (threshold : ℚ) (frequencies : List ℚ) (avg : ℚ) (mags : List ℚ) : Int :=
  (mags.enum.foldl
    (fun (acc : Int × ℚ) nl =>
      if nl.2 > threshold ∧ nl.2 > avg * DETECT ∧ (acc.1 = 0 ∨ nl.2 > acc.2) then
        (goInt (frequencies.getD nl.1 0), nl.2)
      else acc)
    (0, 0)).1

/-! ## Messages, as the properties of the decoder describe them -/

/-- The hexadecimal digits, of either case. -/
def hexChars : List Char :=
  ['0', '1', '2', '3', '4', '5', '6', '7', '8', '9', 'a', 'b', 'c', 'd', 'e', 'f',
    'A', 'B', 'C', 'D', 'E', 'F']

/-- The digits that a hex encoder writes, lower case. -/
def hexDigitsLower : List Char :=
  ['0', '1', '2', '3', '4', '5', '6', '7', '8', '9', 'a', 'b', 'c', 'd', 'e', 'f']

/-- The hex-digit string of a byte sequence: two digits per byte, high digit first. -/
def hexString (bs : List Nat) : List Char :=
  bs.flatMap (fun b => [hexDigitsLower.getD (b / 16) '0', hexDigitsLower.getD (b % 16) '0'])

/-- The DTMF symbol written for a hex digit: `*` for `e`, `#` for `f`, `A`-`D` for `a`-`d`,
the digit itself otherwise. -/
def hexToDtmf (c : Char) : Char :=
  if c = 'e' then '*'
  else if c = 'f' then '#'
  else if c = 'a' then 'A'
  else if c = 'b' then 'B'
  else if c = 'c' then 'C'
  else if c = 'd' then 'D'
  else c

/-- The DTMF message of a payload: the hex-digit string of the payload followed by its
CRC-8 byte, written in DTMF symbols. -/
def dtmfMessage (p : List Nat) : String :=
  ⟨(hexString (p ++ [crc8_Checksum CRC8 p (crc8_MakeTable CRC8)])).map hexToDtmf⟩

/-- The DTMF message of a byte message: two symbols per byte. -/
def encodeBytes (bs : List Nat) : String := String.join (bs.flatMap encodeByte)

/-- The byte message `bs` with bit `k` of its byte at position `i` flipped. -/
def flipBit (bs : List Nat) (i k : Nat) : List Nat :=
  bs.set i (bs.getD i 0 ^^^ 2 ^ k)

/-- The inverse of `crc8_shift` on bytes, for a polynomial with its lowest bit set: the
lowest bit of a shifted byte tells whether the polynomial was added. -/
def crc8_unshift (poly crc : Nat) : Nat :=
  if crc % 2 = 1 then ((crc ^^^ poly) >>> 1) ||| 0x80 else crc >>> 1

/-! ## One block through one bank -/

/-- Lines 102-111 of `dtmf_reader` for one bank: `ResetGoertzel`, `ProcessSample` on every
sample of the block, `calcMagnitudeSquared`; the magnitudes of the buckets, in order. -/
def blockMagnitudes (G : Goertzel) (samples : List ℚ) : List ℚ :=
  (calcMagnitudeSquared
    (samples.foldl (fun G sample => ProcessSample G sample) (ResetGoertzel G))).freqBucket.map
    (fun fB => fB.MagnitureSquared)

/-- The state `(Q1, Q2)` that the recurrence of `ProcessSample` reaches from `(q.1, q.2)`
over a block, for a bucket of coefficient `coeff`. -/
def filterState (coeff : ℚ) (q : ℚ × ℚ) (samples : List ℚ) : ℚ × ℚ :=
  samples.foldl (fun q sample => (coeff * q.1 - q.2 + sample, q.1)) q

/-- The relative magnitude of `calcMagnitudeSquared` for a bucket of coefficient `coeff`
after a block fed from the reset state. -/
def filterMagnitude (coeff : ℚ) (samples : List ℚ) : ℚ :=
  (filterState coeff (0, 0) samples).1 * (filterState coeff (0, 0) samples).1
    + (filterState coeff (0, 0) samples).2 * (filterState coeff (0, 0) samples).2
    - (filterState coeff (0, 0) samples).1 * (filterState coeff (0, 0) samples).2 * coeff

/-- The block of the tone-detection property: `N` samples `sin(2 * pi * f * n / sr)`, with
the sine and π of the parameter. -/
def sineBlock (M : GoMath) (sampleRate : Int) (N : Nat) (f : ℚ) : List ℚ :=
  (List.range N).map (fun n => M.Sin (2 * M.Pi * f * (n : ℚ) / (sampleRate : ℚ)))

/-! ## Theorems -/

theorem runStage_append {σ α β : Type} (body : σ → α → σ × Option β) (s : σ) (xs ys : List α) :
    runStage body s (xs ++ ys) =
      ((runStage body (runStage body s xs).1 ys).1,
        (runStage body s xs).2 ++ (runStage body (runStage body s xs).1 ys).2) := by
  induction xs generalizing s with
  | nil => simp [runStage]
  | cons x xs ih => simp [runStage, ih]

theorem runStage_length {σ α β : Type} (body : σ → α → σ × Option β) (s : σ) (xs : List α) :
    (runStage body s xs).2.length = xs.length := by
  induction xs generalizing s with
  | nil => simp [runStage]
  | cons x xs ih => simp [runStage, ih]

theorem runStage_getElem? {σ α β : Type} (body : σ → α → σ × Option β) (s : σ) (xs : List α)
    (i : Nat) :
    (runStage body s xs).2[i]? =
      (xs[i]?).map (fun x => (body (runStage body s (xs.take i)).1 x).2) := by
  induction xs generalizing s i with
  | nil => simp [runStage]
  | cons x xs ih =>
    cases i with
    | zero => simp [runStage]
    | succ i => simp [runStage, ih]

theorem dedup_zero (v c : String) :
    deduplicate_body ⟨v, 0⟩ c = (⟨c, 1⟩, none) := by
  by_cases h : v = c <;> simp [deduplicate_body, h]

theorem dedup_same (a : String) (c : Nat) (hc : c ≠ 3) :
    deduplicate_body ⟨a, c⟩ a = (⟨a, c + 1⟩, none) := by
  simp [deduplicate_body, hc]

theorem dedup_diff (v a : String) (c : Nat) (hc : c ≠ 3) (h : v ≠ a) :
    deduplicate_body ⟨v, c⟩ a = (⟨a, 1⟩, none) := by
  simp [deduplicate_body, hc, h]

theorem dedup_emit_same (a : String) :
    deduplicate_body ⟨a, 3⟩ a = (⟨a, 0⟩, some a) := by
  simp [deduplicate_body]

theorem dedup_emit_diff (v a : String) (h : v ≠ a) :
    deduplicate_body ⟨v, 3⟩ a = (⟨a, 1⟩, some v) := by
  simp [deduplicate_body, h]

/-- Claim C1.  From the initial state of `deduplicate`, `k` copies of `a` (`k` at most 2)
followed by 4 copies of a different symbol `b` give exactly one emission: it is `b`, and it
is triggered by the last of the four `b`.  Nothing is emitted for `a`. -/
theorem debouncer_prefix_then_four (a b : String) (hab : a ≠ b) (k : Nat) (hk : k ≤ 2) :
    deduplicate (List.replicate k a ++ List.replicate 4 b)
      = List.replicate (k + 3) none ++ [some b] ∧
    sent (deduplicate (List.replicate k a ++ List.replicate 4 b)) = [b] := by
  have hk3 : k = 0 ∨ k = 1 ∨ k = 2 := by omega
  rcases hk3 with rfl | rfl | rfl <;>
    simp [deduplicate, deduplicate_init, runStage, dedup_zero, dedup_same, dedup_diff,
      dedup_emit_same, sent, List.replicate, hab, List.reduceOption]

/-- Claim C1 at `[A, A, B, B, B, B]`. -/
theorem debouncer_prefix_then_four_witness :
    "A" ≠ "B" ∧ 2 ≤ 2 ∧
    deduplicate (List.replicate 2 "A" ++ List.replicate 4 "B")
      = List.replicate (2 + 3) none ++ [some "B"] ∧
    sent (deduplicate (List.replicate 2 "A" ++ List.replicate 4 "B")) = ["B"] :=
  ⟨by decide, by decide, debouncer_prefix_then_four "A" "B" (by decide) 2 (by decide)⟩

theorem dedup_run_same (a : String) : ∀ (n c : Nat) (v : String), c ≤ 3 → (c ≠ 0 → v = a) →
    (runStage deduplicate_body ⟨v, c⟩ (List.replicate n a)).2 =
      (List.range n).map (fun i => if (c + i) % 4 = 3 then some a else none) := by
  intro n
  induction n with
  | zero => intro c v _ _; simp [runStage]
  | succ n ih =>
    intro c v hc hv
    have hcases : c = 0 ∨ c = 1 ∨ c = 2 ∨ c = 3 := by omega
    rw [List.replicate_succ, List.range_succ_eq_map]
    rcases hcases with rfl | rfl | rfl | rfl
    · simp only [runStage, dedup_zero, List.map_cons, List.map_map]
      rw [ih 1 a (by omega) (fun _ => rfl)]
      simp [Function.comp, Nat.add_comm]
    · obtain rfl := hv (by omega)
      simp only [runStage, dedup_same v 1 (by omega), List.map_cons, List.map_map]
      rw [ih 2 v (by omega) (fun _ => rfl)]
      simp [Function.comp, Nat.add_comm, Nat.add_left_comm]
    · obtain rfl := hv (by omega)
      simp only [runStage, dedup_same v 2 (by omega), List.map_cons, List.map_map]
      rw [ih 3 v (by omega) (fun _ => rfl)]
      simp [Function.comp, Nat.add_comm, Nat.add_left_comm]
    · obtain rfl := hv (by omega)
      simp only [runStage, dedup_emit_same, List.map_cons, List.map_map]
      rw [ih 0 v (by omega) (fun _ => rfl)]
      simp only [Function.comp, Nat.add_zero, Nat.reduceMod, if_true, List.cons.injEq, true_and]
      apply List.map_congr_left
      intro i _
      have : (0 + i) % 4 = 3 ↔ (3 + (i + 1)) % 4 = 3 := by omega
      simp only [this, Nat.succ_eq_add_one, Function.comp]

theorem sent_every_fourth (a : String) (n : Nat) :
    sent ((List.range n).map (fun i => if (i + 1) % 4 = 0 then some a else none))
      = List.replicate (n / 4) a := by
  induction n with
  | zero => simp [sent]
  | succ n ih =>
    rw [List.range_succ, List.map_append]
    unfold sent at ih ⊢
    rw [List.reduceOption_append, ih]
    by_cases h : (n + 1) % 4 = 0
    · have hq : (n + 1) / 4 = n / 4 + 1 := by omega
      simp [h, hq, List.replicate_succ', List.reduceOption]
    · have hq : (n + 1) / 4 = n / 4 := by omega
      simp [h, hq, List.reduceOption]

/-- Claim C2, amended.  Within a run of `n` identical symbols fed to `deduplicate` from its
initial state, the inputs that trigger an emission are exactly the 4th, 8th, 12th, ...
(every fourth): the run yields `n / 4` emissions, so 7 repeats yield one. -/
theorem debouncer_run_every_fourth (a : String) (n : Nat) :
    deduplicate (List.replicate n a)
      = (List.range n).map (fun i => if (i + 1) % 4 = 0 then some a else none) ∧
    sent (deduplicate (List.replicate n a)) = List.replicate (n / 4) a := by
  have h : deduplicate (List.replicate n a)
      = (List.range n).map (fun i => if (i + 1) % 4 = 0 then some a else none) := by
    unfold deduplicate deduplicate_init
    rw [dedup_run_same a n 0 "XXX" (by omega) (fun h => absurd rfl h)]
    apply List.map_congr_left
    intro i _
    have : (0 + i) % 4 = 3 ↔ (i + 1) % 4 = 0 := by omega
    simp only [this]
  exact ⟨h, by rw [h, sent_every_fourth]⟩

/-- Claim C2 fails at 7 repeats of `A`: only the 4th input triggers an emission, the 7th
does not, and there is one emission, not two. -/
theorem seven_repeats_emit_once :
    deduplicate (List.replicate 7 "A") = [none, none, none, some "A", none, none, none] ∧
    ¬ ((sent (deduplicate (List.replicate 7 "A"))).length = 2 ∧
        (deduplicate (List.replicate 7 "A"))[3]? = some (some "A") ∧
        (deduplicate (List.replicate 7 "A"))[6]? = some (some "A")) := by
  decide

theorem dedup_inv (pre : List String) :
    (runStage deduplicate_body deduplicate_init pre).1.count ≤ 3 ∧
    ∃ ys, pre = ys ++ List.replicate (runStage deduplicate_body deduplicate_init pre).1.count
      (runStage deduplicate_body deduplicate_init pre).1.val := by
  induction pre using List.reverseRecOn with
  | nil => exact ⟨by simp [runStage, deduplicate_init], [], by simp [runStage, deduplicate_init]⟩
  | append_singleton pre x ih =>
    obtain ⟨hle, ys, hys⟩ := ih
    rw [runStage_append]
    simp only [runStage]
    generalize (runStage deduplicate_body deduplicate_init pre).1 = s at hle hys ⊢
    obtain ⟨v, c⟩ := s
    simp only at hle hys
    by_cases hc : c = 3
    · subst hc
      by_cases hv : v = x
      · subst hv
        rw [dedup_emit_same]
        exact ⟨by simp, pre ++ [v], by simp⟩
      · rw [dedup_emit_diff v x hv]
        exact ⟨by simp, pre, by simp⟩
    · by_cases hv : v = x
      · subst hv
        rw [dedup_same v c hc]
        refine ⟨by simp; omega, ys, ?_⟩
        simp only [List.replicate_succ', ← List.append_assoc, ← hys]
      · rw [dedup_diff v x c hc hv]
        exact ⟨by simp, pre, by simp⟩

theorem dedup_emits_iff (s : DedupState) (x v : String) :
    (deduplicate_body s x).2 = some v ↔ s.count = 3 ∧ s.val = v := by
  unfold deduplicate_body
  by_cases hc : s.count = 3 <;> by_cases hv : s.val = x <;> simp [hc, hv]

theorem dedup_silent_iff (s : DedupState) (x : String) :
    (deduplicate_body s x).2 = none ↔ s.count ≠ 3 := by
  unfold deduplicate_body
  by_cases hc : s.count = 3 <;> by_cases hv : s.val = x <;> simp [hc, hv]

/-- An emission at position `i` means that the state reached on the first `i` codes has
`count = 3` and holds the emitted value. -/
theorem dedup_emission_state (xs : List String) (i : Nat) (v : String)
    (h : (deduplicate xs)[i]? = some (some v)) :
    i < xs.length ∧
    (runStage deduplicate_body deduplicate_init (xs.take i)).1.count = 3 ∧
    (runStage deduplicate_body deduplicate_init (xs.take i)).1.val = v := by
  unfold deduplicate at h
  rw [runStage_getElem?] at h
  cases hx : xs[i]? with
  | none => simp [hx] at h
  | some x =>
    simp only [hx, Option.map_some', Option.some.injEq] at h
    have hi : i < xs.length := by
      by_contra hcon
      rw [List.getElem?_eq_none (by omega)] at hx
      exact absurd hx (by simp)
    exact ⟨hi, (dedup_emits_iff _ _ _).1 h⟩

theorem dedup_three_before (xs : List String) (i : Nat) (v : String)
    (h : (deduplicate xs)[i]? = some (some v)) :
    3 ≤ i ∧ xs[i - 3]? = some v ∧ xs[i - 2]? = some v ∧ xs[i - 1]? = some v ∧
      [v, v, v] <:+: xs := by
  obtain ⟨hi, hc, hv⟩ := dedup_emission_state xs i v h
  obtain ⟨_, ys, hys⟩ := dedup_inv (xs.take i)
  rw [hc, hv] at hys
  have hlen : i = ys.length + 3 := by
    have := congrArg List.length hys
    simp at this
    omega
  have hget : ∀ j, j < i → xs[j]? = (ys ++ List.replicate 3 v)[j]? := by
    intro j hj
    rw [← hys, List.getElem?_take_of_lt hj]
  refine ⟨by omega, ?_, ?_, ?_, ?_⟩
  · rw [hget _ (by omega), List.getElem?_append_right (by omega)]
    simp [hlen]
  · rw [hget _ (by omega), List.getElem?_append_right (by omega)]
    have : i - 2 - ys.length = 1 := by omega
    simp [this]
  · rw [hget _ (by omega), List.getElem?_append_right (by omega)]
    have : i - 1 - ys.length = 2 := by omega
    simp [this]
  · refine ⟨ys, xs.drop i, ?_⟩
    have : ys ++ [v, v, v] = xs.take i := by rw [hys]; rfl
    rw [this, List.take_append_drop]

/-- Claim C4.  Whenever `deduplicate` emits `v` on receiving the raw symbol at position `i`,
at least three raw symbols precede that position and the three immediately before it are
all equal to `v`; so `v` occurs three times in a row in the raw stream. -/
theorem debouncer_emission_preceded_by_three (xs : List String) (i : Nat) (v : String)
    (h : (deduplicate xs)[i]? = some (some v)) :
    3 ≤ i ∧ xs[i - 3]? = some v ∧ xs[i - 2]? = some v ∧ xs[i - 1]? = some v ∧
      [v, v, v] <:+: xs :=
  dedup_three_before xs i v h

/-- Claim C4 at `[A, B, B, B, C]`, where the emission of `B` is triggered by `C`. -/
theorem debouncer_emission_preceded_by_three_witness :
    (deduplicate ["A", "B", "B", "B", "C"])[4]? = some (some "B") ∧
    (3 ≤ 4 ∧ ["A", "B", "B", "B", "C"][4 - 3]? = some "B" ∧
      ["A", "B", "B", "B", "C"][4 - 2]? = some "B" ∧
      ["A", "B", "B", "B", "C"][4 - 1]? = some "B" ∧
      ["B", "B", "B"] <:+: ["A", "B", "B", "B", "C"]) :=
  ⟨by decide, debouncer_emission_preceded_by_three ["A", "B", "B", "B", "C"] 4 "B" (by decide)⟩

/-- Three equal codes received without any emission leave the loop with `count = 3`. -/
theorem dedup_three_silent (s : DedupState) (hs : s.count ≤ 3) (a : String)
    (h : ∀ o ∈ (runStage deduplicate_body s [a, a, a]).2, o = none) :
    (runStage deduplicate_body s [a, a, a]).1 = ⟨a, 3⟩ := by
  obtain ⟨v, c⟩ := s
  simp only at hs
  have hcases : c = 0 ∨ c = 1 ∨ c = 2 ∨ c = 3 := by omega
  by_cases hv : v = a
  · subst hv
    rcases hcases with rfl | rfl | rfl | rfl <;>
      simp [runStage, dedup_zero, dedup_same, dedup_emit_same] at h ⊢
  · rcases hcases with rfl | rfl | rfl | rfl <;>
      simp [runStage, dedup_zero, dedup_same, dedup_diff, dedup_emit_diff, hv] at h ⊢

theorem runStage_take {σ α β : Type} (body : σ → α → σ × Option β) (s : σ) (xs : List α)
    (k : Nat) :
    (runStage body s (xs.take k)).2 = (runStage body s xs).2.take k := by
  induction xs generalizing s k with
  | nil => simp [runStage]
  | cons x xs ih =>
    cases k with
    | zero => simp [runStage]
    | succ k => simp [runStage, ih]

theorem take_three {α : Type} (xs : List α) (k : Nat) (a : α)
    (h0 : xs[k]? = some a) (h1 : xs[k + 1]? = some a) (h2 : xs[k + 2]? = some a) :
    xs.take (k + 3) = xs.take k ++ [a, a, a] := by
  rw [show k + 3 = k + 2 + 1 from rfl, List.take_succ, h2, show k + 2 = k + 1 + 1 from rfl,
    List.take_succ, h1, List.take_succ, h0]
  simp

/-- As long as nothing was emitted, three equal codes in a row bring `count` to 3. -/
theorem dedup_state_after_three (xs : List String) (k : Nat) (a : String)
    (h0 : xs[k]? = some a) (h1 : xs[k + 1]? = some a) (h2 : xs[k + 2]? = some a)
    (hs : ∀ j, j < k + 3 → (deduplicate xs)[j]? = some none) :
    (runStage deduplicate_body deduplicate_init (xs.take (k + 3))).1 = ⟨a, 3⟩ := by
  have hsil : ∀ o ∈ (runStage deduplicate_body deduplicate_init (xs.take (k + 3))).2,
      o = none := by
    intro o ho
    rw [runStage_take] at ho
    obtain ⟨m, hm⟩ := List.mem_iff_getElem?.1 ho
    rw [List.getElem?_take] at hm
    by_cases hmk : m < k + 3
    · rw [if_pos hmk] at hm
      have := hs m hmk
      unfold deduplicate at this
      rw [this] at hm
      exact (Option.some.inj hm).symm
    · rw [if_neg hmk] at hm
      exact absurd hm (by simp)
  rw [take_three xs k a h0 h1 h2] at hsil ⊢
  rw [runStage_append] at hsil ⊢
  simp only at hsil ⊢
  apply dedup_three_silent _ (dedup_inv _).1
  intro o ho
  exact hsil o (List.mem_append_right _ ho)

/-- Claim C3, amended.  The first emission of `deduplicate` requires 3 consecutive identical
raw symbols followed by one more raw symbol of any value: position `i` triggers the first
emission, of value `v`, exactly when the three raw symbols before `i` all equal `v` and no
three consecutive equal raw symbols are followed by a symbol earlier in the stream. -/
theorem debouncer_first_emission_iff (xs : List String) (i : Nat) (v : String) :
    ((deduplicate xs)[i]? = some (some v) ∧ ∀ j, j < i → (deduplicate xs)[j]? = some none) ↔
    (i < xs.length ∧ 3 ≤ i ∧
      xs[i - 3]? = some v ∧ xs[i - 2]? = some v ∧ xs[i - 1]? = some v ∧
      ∀ j, j + 3 < i → ¬ (xs[j]? = xs[j + 1]? ∧ xs[j + 1]? = xs[j + 2]?)) := by
  constructor
  · rintro ⟨h, hfirst⟩
    obtain ⟨hi, _, _⟩ := dedup_emission_state xs i v h
    obtain ⟨h3, ha, hb, hc, _⟩ := dedup_three_before xs i v h
    refine ⟨hi, h3, ha, hb, hc, ?_⟩
    rintro j hj ⟨e1, e2⟩
    obtain ⟨a, hja⟩ : ∃ a, xs[j]? = some a :=
      ⟨xs[j], List.getElem?_eq_getElem (by omega)⟩
    have hj1 : xs[j + 1]? = some a := by rw [← e1, hja]
    have hj2 : xs[j + 2]? = some a := by rw [← e2, hj1]
    have hst := dedup_state_after_three xs j a hja hj1 hj2
      (fun m hm => hfirst m (by omega))
    have hem := hfirst (j + 3) hj
    unfold deduplicate at hem
    rw [runStage_getElem?, hst, List.getElem?_eq_getElem (by omega)] at hem
    simp only [Option.map_some', Option.some.injEq] at hem
    exact absurd rfl ((dedup_silent_iff _ _).1 hem)
  · rintro ⟨hi, h3, ha, hb, hc, hno⟩
    have hfirst : ∀ j, j < i → (deduplicate xs)[j]? = some none := by
      intro j hj
      have hjlen : j < (deduplicate xs).length := by
        unfold deduplicate
        rw [runStage_length]
        omega
      rw [List.getElem?_eq_getElem hjlen]
      cases ho : (deduplicate xs)[j] with
      | none => rfl
      | some w =>
        exfalso
        have hw : (deduplicate xs)[j]? = some (some w) := by
          rw [List.getElem?_eq_getElem hjlen, ho]
        obtain ⟨g3, ga, gb, gc, _⟩ := dedup_three_before xs j w hw
        apply hno (j - 3) (by omega)
        have e1 : j - 3 + 1 = j - 2 := by omega
        have e2 : j - 3 + 2 = j - 1 := by omega
        rw [e1, e2, ga, gb, gc]
        exact ⟨rfl, rfl⟩
    refine ⟨?_, hfirst⟩
    have e1 : i - 3 + 1 = i - 2 := by omega
    have e2 : i - 3 + 2 = i - 1 := by omega
    have e3 : i - 3 + 3 = i := by omega
    have hst := dedup_state_after_three xs (i - 3) v ha (by rw [e1]; exact hb)
      (by rw [e2]; exact hc) (fun m hm => hfirst m (by omega))
    rw [e3] at hst
    unfold deduplicate
    rw [runStage_getElem?, hst, List.getElem?_eq_getElem hi]
    simp [(dedup_emits_iff ⟨v, 3⟩ xs[i] v).2 ⟨rfl, rfl⟩]

/-- Claim C3 fails at `[A, A, A, B]`: the first emission is triggered by `B`, which differs
from the three symbols before it. -/
theorem fourth_symbol_may_differ :
    deduplicate ["A", "A", "A", "B"] = [none, none, none, some "A"] ∧
    ¬ (["A", "A", "A", "B"][3]? = ["A", "A", "A", "B"][2]?) := by
  decide

theorem utf8Bytes_ne_nil (c : Char) : utf8Bytes c ≠ [] := by
  unfold utf8Bytes
  split
  · simp
  · split
    · simp
    · split <;> simp

theorem len_pos_iff (s : String) : 0 < len s ↔ s ≠ "" := by
  obtain ⟨cs⟩ := s
  cases cs with
  | nil => simp [len, goBytes]
  | cons c cs =>
    have h : (⟨c :: cs⟩ : String) ≠ "" := by
      intro h
      have := congrArg String.data h
      simp at this
    simp only [len, goBytes, List.flatMap_cons, List.length_append, ne_eq, h, not_false_eq_true,
      iff_true]
    have := List.length_pos.2 (utf8Bytes_ne_nil c)
    omega

theorem parse_nonblank (s : ParseState) (m : String) (hm : m ≠ "") :
    parse_message_body s m = (⟨s.blanks, s.msg ++ m⟩, none) := by
  simp [parse_message_body, hm]

theorem parse_blank_emit (s : ParseState) (hb : 4 ≤ s.blanks) (hm : s.msg ≠ "") :
    parse_message_body s "" = (⟨0, ""⟩, some s.msg) := by
  have h1 : s.blanks + 1 ≥ 5 := by omega
  have h2 : len s.msg > 0 := (len_pos_iff _).2 hm
  simp [parse_message_body, h1, h2]

theorem parse_blank_count (s : ParseState) (h : s.blanks < 4 ∨ s.msg = "") :
    parse_message_body s "" = (⟨s.blanks + 1, s.msg⟩, none) := by
  have h' : ¬ (s.blanks + 1 ≥ 5 ∧ len s.msg > 0) := by
    rintro ⟨h1, h2⟩
    rcases h with h | h
    · omega
    · exact (len_pos_iff _).1 h2 h
  rw [parse_message_body, if_pos rfl, if_neg h']

theorem join_append_singleton (ss : List String) (m : String) :
    String.join (ss ++ [m]) = String.join ss ++ m := by
  apply String.ext
  simp

theorem join_cons (m : String) (ss : List String) :
    String.join (m :: ss) = m ++ String.join ss := by
  apply String.ext
  simp

theorem join_ne_empty_iff (ss : List String) :
    String.join ss ≠ "" ↔ ∃ x ∈ ss, x ≠ "" := by
  induction ss with
  | nil => simp; rfl
  | cons m ss ih =>
    rw [join_cons]
    have happ : m ++ String.join ss ≠ "" ↔ (m ≠ "" ∨ String.join ss ≠ "") := by
      simp only [ne_eq, String.ext_iff, String.data_append, List.append_eq_nil]
      tauto
    rw [happ, ih]
    simp

/-- The loop of `parse_message` over symbols that are all non-blank only appends. -/
theorem parse_run_nonblank (ss : List String) (hnb : ∀ s ∈ ss, s ≠ "") (st : ParseState) :
    runStage parse_message_body st ss
      = (⟨st.blanks, st.msg ++ String.join ss⟩, List.replicate ss.length none) := by
  induction ss generalizing st with
  | nil => simp [runStage, String.join]
  | cons m ss ih =>
    have hm : m ≠ "" := hnb m (List.mem_cons_self _ _)
    have hrest : ∀ s ∈ ss, s ≠ "" := fun s hs => hnb s (List.mem_cons_of_mem _ hs)
    simp only [runStage, parse_nonblank st m hm, ih hrest, join_cons, String.append_assoc,
      List.length_cons, List.replicate_succ]

theorem framer_five_blanks (ss : List String) (hne : ss ≠ []) (hnb : ∀ s ∈ ss, s ≠ "") :
    runStage parse_message_body parse_message_init (ss ++ List.replicate 5 "")
      = (parse_message_init, List.replicate (ss.length + 4) none ++ [some (String.join ss)]) := by
  have hj : String.join ss ≠ "" := by
    rw [join_ne_empty_iff]
    obtain ⟨x, hx⟩ := List.exists_mem_of_ne_nil ss hne
    exact ⟨x, hx, hnb x hx⟩
  rw [runStage_append, parse_run_nonblank ss hnb, List.replicate_add]
  simp only [parse_message_init, String.empty_append, List.replicate, runStage]
  rw [parse_blank_count ⟨0, String.join ss⟩ (Or.inl (by simp))]
  simp only
  rw [parse_blank_count ⟨0 + 1, String.join ss⟩ (Or.inl (by simp))]
  simp only
  rw [parse_blank_count ⟨0 + 1 + 1, String.join ss⟩ (Or.inl (by simp))]
  simp only
  rw [parse_blank_count ⟨0 + 1 + 1 + 1, String.join ss⟩ (Or.inl (by simp))]
  simp only
  rw [parse_blank_emit ⟨0 + 1 + 1 + 1 + 1, String.join ss⟩ (by simp) hj]
  simp only [List.append_assoc, List.cons_append, List.nil_append]

theorem sent_replicate_none {β : Type} (n : Nat) (l : List (Option β)) :
    sent (List.replicate n none ++ l) = sent l := by
  induction n with
  | zero => simp
  | succ n ih =>
    rw [List.replicate_succ, List.cons_append]
    unfold sent at ih ⊢
    rw [List.reduceOption_cons_of_none, ih]

/-- Claim C5.  From the initial state of `parse_message`, a non-empty sequence of non-blank
symbols followed by exactly 5 blanks gives exactly one message, the concatenation of the
symbols, emitted on the 5th blank; the state is then the initial state again, and a
following non-blank symbol `t` starts a fresh message. -/
theorem framer_message_then_blanks (ss : List String) (hne : ss ≠ [])
    (hnb : ∀ s ∈ ss, s ≠ "") :
    parse_message (ss ++ List.replicate 5 "")
      = List.replicate (ss.length + 4) none ++ [some (String.join ss)] ∧
    sent (parse_message (ss ++ List.replicate 5 "")) = [String.join ss] ∧
    (runStage parse_message_body parse_message_init (ss ++ List.replicate 5 "")).1
      = parse_message_init ∧
    ∀ t, t ≠ "" →
      runStage parse_message_body parse_message_init (ss ++ List.replicate 5 "" ++ [t])
        = (⟨0, t⟩, List.replicate (ss.length + 4) none ++ [some (String.join ss), none]) := by
  have h := framer_five_blanks ss hne hnb
  refine ⟨?_, ?_, ?_, ?_⟩
  · unfold parse_message; rw [h]
  · unfold parse_message; rw [h, sent_replicate_none]; rfl
  · rw [h]
  · intro t ht
    rw [runStage_append, h]
    simp [runStage, parse_nonblank _ t ht, parse_message_init]

/-- Claim C5 at the symbols `1`, `2` followed by 5 blanks. -/
theorem framer_message_then_blanks_witness :
    parse_message (["1", "2"] ++ List.replicate 5 "")
      = List.replicate (["1", "2"].length + 4) none ++ [some (String.join ["1", "2"])] ∧
    sent (parse_message (["1", "2"] ++ List.replicate 5 "")) = [String.join ["1", "2"]] ∧
    (runStage parse_message_body parse_message_init (["1", "2"] ++ List.replicate 5 "")).1
      = parse_message_init ∧
    ∀ t, t ≠ "" →
      runStage parse_message_body parse_message_init
          (["1", "2"] ++ List.replicate 5 "" ++ [t])
        = (⟨0, t⟩,
            List.replicate (["1", "2"].length + 4) none ++ [some (String.join ["1", "2"]), none]) :=
  framer_message_then_blanks ["1", "2"] (by decide) (by decide)

/-- What `parse_message` holds in `blanks` and `msg`, in terms of the symbols received
since its last emission. -/
theorem parse_state_since (pre : List String) :
    (runStage parse_message_body parse_message_init pre).1 =
      ⟨(sinceLastEmission pre (parse_message pre)).count "",
        String.join (sinceLastEmission pre (parse_message pre))⟩ := by
  induction pre using List.reverseRecOn with
  | nil => simp [runStage, parse_message_init, sinceLastEmission, parse_message, String.join,
      List.rtakeWhile]
  | append_singleton pre m ih =>
    have htr : parse_message (pre ++ [m]) = parse_message pre ++
        [(parse_message_body (runStage parse_message_body parse_message_init pre).1 m).2] := by
      unfold parse_message
      rw [runStage_append]
      simp [runStage]
    have hlen : pre.length = (parse_message pre).length := by
      unfold parse_message
      rw [runStage_length]
    have hzip : (pre ++ [m]).zip (parse_message (pre ++ [m])) =
        pre.zip (parse_message pre) ++
          [(m, (parse_message_body (runStage parse_message_body parse_message_init pre).1 m).2)] := by
      rw [htr, List.zip_append hlen]
      rfl
    have hstate : (runStage parse_message_body parse_message_init (pre ++ [m])).1 =
        (parse_message_body (runStage parse_message_body parse_message_init pre).1 m).1 := by
      rw [runStage_append]
      simp [runStage]
    rw [hstate]
    unfold sinceLastEmission at ih ⊢
    rw [hzip, List.rtakeWhile_concat]
    generalize List.rtakeWhile (fun p => p.2.isNone) (pre.zip (parse_message pre)) = R at ih ⊢
    rw [ih]
    have hsplit : ∀ (b : Bool), List.map Prod.fst (if b = true then R ++ [(m, (none : Option String))]
        else []) = if b = true then List.map Prod.fst R ++ [m] else [] := by
      intro b; cases b <;> simp
    generalize hseg : List.map Prod.fst R = seg at hsplit ⊢
    by_cases hm : m = ""
    · subst hm
      by_cases hemit : 4 ≤ seg.count "" ∧ String.join seg ≠ ""
      · rw [parse_blank_emit ⟨seg.count "", String.join seg⟩ hemit.1 hemit.2]
        simp [String.join]
      · have hne : (seg.count "" < 4 ∨ String.join seg = "") := by
          by_cases h4 : 4 ≤ seg.count ""
          · right
            by_contra hcon
            exact hemit ⟨h4, hcon⟩
          · left; omega
        rw [parse_blank_count ⟨seg.count "", String.join seg⟩ hne]
        simp [join_append_singleton, hseg]
    · rw [parse_nonblank _ m hm]
      have hm' : ¬ ("" = m) := fun h => hm h.symm
      simp [join_append_singleton, List.count_append, List.count_singleton, hm', hm, hseg]

theorem parse_emits_iff (s : ParseState) (m msg : String) :
    (parse_message_body s m).2 = some msg ↔
      m = "" ∧ s.blanks + 1 ≥ 5 ∧ s.msg ≠ "" ∧ msg = s.msg := by
  by_cases hm : m = ""
  · subst hm
    by_cases hemit : 4 ≤ s.blanks ∧ s.msg ≠ ""
    · rw [parse_blank_emit s hemit.1 hemit.2]
      simp only [Option.some.injEq, true_and, hemit.2, ne_eq, not_false_eq_true]
      constructor
      · intro h; exact ⟨by omega, h.symm⟩
      · intro h; exact h.2.symm
    · have hne : (s.blanks < 4 ∨ s.msg = "") := by
        by_cases h4 : 4 ≤ s.blanks
        · right
          by_contra hcon
          exact hemit ⟨h4, hcon⟩
        · left; omega
      rw [parse_blank_count s hne]
      simp only [true_and]
      constructor
      · intro h; exact absurd h (by simp)
      · rintro ⟨h1, h2, _⟩
        exact absurd ⟨by omega, h2⟩ hemit
  · rw [parse_nonblank s m hm]
    simp [hm]

/-- Claim C6.  `parse_message` emits on an incoming symbol `m` exactly when `m` is blank,
the blanks received since the last emission (or the start), `m` included, number at least
5, and a non-blank symbol was received since the last emission; the message is the
concatenation of the symbols received since then.  A non-blank symbol leaves the blank
count unchanged, and five leading blanks count: `1` is emitted on its single trailing
blank. -/
theorem framer_emits_iff_cumulative (pre : List String) (m : String) :
    ((∃ msg, (parse_message (pre ++ [m]))[pre.length]? = some (some msg)) ↔
      (m = "" ∧
        (sinceLastEmission pre (parse_message pre)).count "" + 1 ≥ 5 ∧
        ∃ x ∈ sinceLastEmission pre (parse_message pre), x ≠ "")) ∧
    (∀ msg, (parse_message (pre ++ [m]))[pre.length]? = some (some msg) →
      msg = String.join (sinceLastEmission pre (parse_message pre))) ∧
    (m ≠ "" →
      (runStage parse_message_body parse_message_init (pre ++ [m])).1.blanks
        = (runStage parse_message_body parse_message_init pre).1.blanks) ∧
    parse_message ["", "", "", "", "", "1", ""]
      = [none, none, none, none, none, none, some "1"] := by
  have hget : (parse_message (pre ++ [m]))[pre.length]? =
      some (parse_message_body (runStage parse_message_body parse_message_init pre).1 m).2 := by
    unfold parse_message
    rw [runStage_getElem?]
    simp
  have hst := parse_state_since pre
  refine ⟨?_, ?_, ?_, by decide⟩
  · rw [hget]
    simp only [Option.some.injEq, parse_emits_iff, hst, join_ne_empty_iff]
    constructor
    · rintro ⟨msg, h1, h2, h3, _⟩
      exact ⟨h1, h2, h3⟩
    · rintro ⟨h1, h2, h3⟩
      exact ⟨_, h1, h2, h3, rfl⟩
  · intro msg h
    rw [hget] at h
    simp only [Option.some.injEq, parse_emits_iff, hst] at h
    exact h.2.2.2
  · intro hm
    rw [runStage_append]
    simp [runStage, parse_nonblank _ m hm]

/-- Claim C6 at three blanks followed by `1`: the blank count stays 3. -/
theorem framer_emits_iff_cumulative_witness :
    "1" ≠ "" ∧
    (runStage parse_message_body parse_message_init (["", "", ""] ++ ["1"])).1.blanks
        = (runStage parse_message_body parse_message_init ["", "", ""]).1.blanks :=
  ⟨by decide, (framer_emits_iff_cumulative ["", "", ""] "1").2.2.1 (by decide)⟩

theorem dtmf_to_hex_foldl (cs : List Char) (acc : String) :
    cs.foldl
      (fun res a =>
        if a = '*' then res ++ "e"
        else if a = '#' then res ++ "f"
        else res ++ String.singleton a) acc
      = acc ++ ⟨cs.map hexRune⟩ := by
  induction cs generalizing acc with
  | nil => apply String.ext; simp
  | cons c cs ih =>
    rw [List.foldl_cons, ih]
    apply String.ext
    by_cases h1 : c = '*'
    · simp [h1, hexRune]
    · by_cases h2 : c = '#'
      · subst h2; simp [hexRune]
      · simp [h1, h2, hexRune]

theorem dtmf_to_hex_data (d : String) : (dtmf_to_hex d).data = d.data.map hexRune := by
  unfold dtmf_to_hex
  rw [dtmf_to_hex_foldl]
  simp

theorem dtmf_to_hex_ne_empty (d : String) (h : d ≠ "") : dtmf_to_hex d ≠ "" := by
  intro hcon
  have h1 := congrArg String.data hcon
  rw [dtmf_to_hex_data] at h1
  have h2 : d.data = [] := by simpa using h1
  exact h (String.ext h2)

theorem hexDecode_ne_nil (bs : List Nat) (d : List Nat) (h : hexDecode bs = (d, none))
    (hbs : bs ≠ []) : d ≠ [] := by
  match bs, hbs with
  | [p], _ =>
    unfold hexDecode at h
    split at h <;> simp at h
  | p :: q :: rest, _ =>
    unfold hexDecode at h
    split at h
    · simp at h
    · split at h
      · simp at h
      · intro hd
        subst hd
        simp at h

theorem hexDecodeString_ne_nil (msg : String) (d : List Nat) (hmsg : msg ≠ "")
    (h : hexDecodeString (dtmf_to_hex msg) = (d, none)) : d ≠ [] := by
  apply hexDecode_ne_nil _ d h
  have := (len_pos_iff _).2 (dtmf_to_hex_ne_empty msg hmsg)
  unfold len at this
  exact List.length_pos.1 this

theorem getD_last (d : List Nat) (hd : d ≠ []) :
    some (d.getD (d.length - 1) 0) = d.getLast? := by
  rw [List.getLast?_eq_getElem?, List.getD_eq_getElem?_getD]
  have : d.length - 1 < d.length := by
    have := List.length_pos.2 hd
    omega
  rw [List.getElem?_eq_getElem this]
  simp

/-- Claim C7.  One iteration of `decode_and_verify_crc8` emits a payload `p` exactly when
the hex decoding of `dtmf_to_hex msg` succeeds with bytes `d`, the CRC-8 of `d` without
its last byte equals the last byte of `d`, and `p` is `d` without its last byte.  On a
decode failure, and on a checksum mismatch of a framed (non-empty) message, nothing is
emitted and the loop goes on with the next message. -/
theorem decoder_emits_iff (table : List Nat) (msg : String) (rest : List String) :
    (∀ p, decode_and_verify_crc8_body table msg = DecodeOutcome.emit p ↔
      ∃ d, hexDecodeString (dtmf_to_hex msg) = (d, none) ∧
        d.getLast? = some (crc8_Checksum CRC8 d.dropLast table) ∧ p = d.dropLast) ∧
    (∀ p, decode_and_verify_crc8_body table msg = DecodeOutcome.emit p →
      decode_loop table (msg :: rest)
        = (p :: (decode_loop table rest).1, (decode_loop table rest).2)) ∧
    ((hexDecodeString (dtmf_to_hex msg)).2 ≠ none →
      decode_and_verify_crc8_body table msg = DecodeOutcome.skip ∧
      decode_loop table (msg :: rest) = decode_loop table rest) ∧
    (msg ≠ "" → ∀ d, hexDecodeString (dtmf_to_hex msg) = (d, none) →
      d.getLast? ≠ some (crc8_Checksum CRC8 d.dropLast table) →
      decode_and_verify_crc8_body table msg = DecodeOutcome.skip ∧
      decode_loop table (msg :: rest) = decode_loop table rest) := by
  have hloop_skip : decode_and_verify_crc8_body table msg = DecodeOutcome.skip →
      decode_loop table (msg :: rest) = decode_loop table rest := by
    intro h
    rw [decode_loop, h]
  have hbody : ∀ d, hexDecodeString (dtmf_to_hex msg) = (d, none) → d ≠ [] →
      decode_and_verify_crc8_body table msg =
        if d.getLast? = some (crc8_Checksum CRC8 d.dropLast table)
        then DecodeOutcome.emit d.dropLast else DecodeOutcome.skip := by
    intro d hd hne
    have hlen : d.length ≠ 0 := fun h => hne (List.length_eq_zero.1 h)
    unfold decode_and_verify_crc8_body
    rw [hd]
    simp only [hlen, if_false, ← List.dropLast_eq_take, ← getD_last d hne, Option.some.injEq]
    by_cases hc : crc8_Checksum CRC8 d.dropLast table = d.getD (d.length - 1) 0
    · rw [if_pos hc, if_pos hc.symm]
    · rw [if_neg hc, if_neg (fun h => hc h.symm)]
  refine ⟨?_, ?_, ?_, ?_⟩
  · intro p
    constructor
    · intro h
      rcases hdec : hexDecodeString (dtmf_to_hex msg) with ⟨d, _ | e⟩
      · by_cases hne : d = []
        · subst hne
          unfold decode_and_verify_crc8_body at h
          rw [hdec] at h
          simp at h
        · rw [hbody d hdec hne] at h
          by_cases hc : d.getLast? = some (crc8_Checksum CRC8 d.dropLast table)
          · rw [if_pos hc] at h
            exact ⟨d, rfl, hc, (DecodeOutcome.emit.inj h).symm⟩
          · rw [if_neg hc] at h
            exact absurd h (by simp)
      · unfold decode_and_verify_crc8_body at h
        rw [hdec] at h
        simp at h
    · rintro ⟨d, hd, hc, rfl⟩
      have hne : d ≠ [] := by
        intro h; subst h; simp at hc
      rw [hbody d hd hne, if_pos hc]
  · intro p h
    rw [decode_loop, h]
  · intro herr
    have : decode_and_verify_crc8_body table msg = DecodeOutcome.skip := by
      rcases hdec : hexDecodeString (dtmf_to_hex msg) with ⟨d, _ | e⟩
      · rw [hdec] at herr
        exact absurd rfl herr
      · unfold decode_and_verify_crc8_body
        rw [hdec]
    exact ⟨this, hloop_skip this⟩
  · intro hmsg d hd hc
    have hne := hexDecodeString_ne_nil msg d hmsg hd
    have : decode_and_verify_crc8_body table msg = DecodeOutcome.skip := by
      rw [hbody d hd hne, if_neg hc]
    exact ⟨this, hloop_skip this⟩

/-- Claim C7 at the message `3196`, whose checksum byte is wrong. -/
theorem decoder_emits_iff_witness :
    "3196" ≠ "" ∧
    hexDecodeString (dtmf_to_hex "3196") = ([0x31, 0x96], none) ∧
    [0x31, 0x96].getLast? ≠ some (crc8_Checksum CRC8 [0x31, 0x96].dropLast (crc8_MakeTable CRC8)) ∧
    decode_and_verify_crc8_body (crc8_MakeTable CRC8) "3196" = DecodeOutcome.skip ∧
    decode_loop (crc8_MakeTable CRC8) ("3196" :: ["3197"])
      = decode_loop (crc8_MakeTable CRC8) ["3197"] :=
  ⟨by decide, by decide, by decide,
    (decoder_emits_iff (crc8_MakeTable CRC8) "3196" ["3197"]).2.2.2 (by decide) [0x31, 0x96]
      (by decide) (by decide)⟩

/-- Claim C8 fails: the hex decoding of the three-digit message `31e` ends in a length
error after the single byte `0x31`; there is no checksum byte `0x1e`, and the iteration
emits nothing. -/
theorem odd_message_31e_fails :
    dtmf_to_hex "31e" = "31e" ∧
    hexDecodeString (dtmf_to_hex "31e") = ([0x31], some HexError.ErrLength) ∧
    hexDecodeString (dtmf_to_hex "31e") ≠ ([0x31, 0x1e], none) ∧
    decode_and_verify_crc8_body (crc8_MakeTable CRC8) "31e" = DecodeOutcome.skip := by
  decide

/-- Claim C8, amended.  The message `31e` has an odd number of digits: its hex decoding
fails and nothing is emitted, whatever the CRC table.  The four-symbol message `311*`
(hex `311e`) decodes into the payload `[0x31]` with checksum byte `0x1e`, and the payload
is emitted exactly when the CRC-8 of `[0x31]` equals `0x1e`.  That CRC-8 is `0x97`, so
`311*` is discarded and `3197` is emitted. -/
theorem decoder_example_even_message :
    hexDecodeString (dtmf_to_hex "31e") = ([0x31], some HexError.ErrLength) ∧
    (∀ table, decode_and_verify_crc8_body table "31e" = DecodeOutcome.skip) ∧
    dtmf_to_hex "311*" = "311e" ∧
    hexDecodeString (dtmf_to_hex "311*") = ([0x31, 0x1e], none) ∧
    (∀ table, decode_and_verify_crc8_body table "311*" =
      if crc8_Checksum CRC8 [0x31] table = 0x1e then DecodeOutcome.emit [0x31]
      else DecodeOutcome.skip) ∧
    crc8_Checksum CRC8 [0x31] (crc8_MakeTable CRC8) = 0x97 ∧
    decode_and_verify_crc8_body (crc8_MakeTable CRC8) "311*" = DecodeOutcome.skip ∧
    decode_and_verify_crc8_body (crc8_MakeTable CRC8) "3197" = DecodeOutcome.emit [0x31] := by
  have h1 : hexDecodeString (dtmf_to_hex "31e") = ([0x31], some HexError.ErrLength) := by decide
  have h2 : hexDecodeString (dtmf_to_hex "311*") = ([0x31, 0x1e], none) := by decide
  refine ⟨h1, ?_, by decide, h2, ?_, by decide, by decide, by decide⟩
  · intro table
    unfold decode_and_verify_crc8_body
    rw [h1]
  · intro table
    unfold decode_and_verify_crc8_body
    rw [h2]
    simp

/-- Four copies of a code, received with `count = 0`, are answered by one emission. -/
theorem dedup_block (v s : String) :
    runStage deduplicate_body ⟨v, 0⟩ (List.replicate 4 s)
      = (⟨s, 0⟩, [none, none, none, some s]) := by
  simp [List.replicate, runStage, dedup_zero, dedup_same, dedup_emit_same]

theorem dedup_blocks (syms : List String) (v : String) :
    sent (runStage deduplicate_body ⟨v, 0⟩ (syms.flatMap (fun s => List.replicate 4 s))).2
      = syms := by
  induction syms generalizing v with
  | nil => simp [runStage, sent]
  | cons s syms ih =>
    rw [List.flatMap_cons, runStage_append, dedup_block]
    have := ih s
    unfold sent at this ⊢
    simp only [List.reduceOption_append, this]
    simp [List.reduceOption]

theorem rawContiguous_eq (syms : List String) :
    rawContiguous syms = (syms ++ List.replicate 5 "").flatMap (fun s => List.replicate 4 s) := by
  unfold rawContiguous
  rw [List.flatMap_append]
  rfl

theorem dedup_rawContiguous (syms : List String) :
    sent (deduplicate (rawContiguous syms)) = syms ++ List.replicate 5 "" := by
  rw [rawContiguous_eq]
  exact dedup_blocks _ _

theorem hex_digit_roundtrip :
    ∀ n, n < 16 →
      utf8Bytes (hexRune (dtmfDigit n)) = [(hexRune (dtmfDigit n)).toNat] ∧
      reverseHexTable (hexRune (dtmfDigit n)).toNat = n := by
  decide

set_option maxRecDepth 100000 in
theorem byte_of_digits : ∀ b, b < 256 → ((b / 16) <<< 4) % 256 ||| (b % 16) = b := by
  decide

theorem goBytes_encode (bs : List Nat) :
    goBytes (dtmf_to_hex (String.join (bs.flatMap encodeByte)))
      = bs.flatMap (fun b =>
          utf8Bytes (hexRune (dtmfDigit (b / 16))) ++ utf8Bytes (hexRune (dtmfDigit (b % 16)))) := by
  unfold goBytes
  rw [dtmf_to_hex_data, String.data_join]
  induction bs with
  | nil => simp
  | cons b bs ih =>
    simp only [List.flatMap_cons, List.map_append, List.flatten_append, List.flatMap_append] at ih ⊢
    rw [ih]
    simp [encodeByte]

theorem hexDecode_encode (bs : List Nat) (hbs : ∀ b ∈ bs, b < 256) :
    hexDecode (bs.flatMap (fun b =>
      utf8Bytes (hexRune (dtmfDigit (b / 16))) ++ utf8Bytes (hexRune (dtmfDigit (b % 16)))))
      = (bs, none) := by
  induction bs with
  | nil => simp [hexDecode]
  | cons b bs ih =>
    have hb : b < 256 := hbs b (List.mem_cons_self _ _)
    have hrest := ih (fun x hx => hbs x (List.mem_cons_of_mem _ hx))
    have hhi := hex_digit_roundtrip (b / 16) (by omega)
    have hlo := hex_digit_roundtrip (b % 16) (by omega)
    rw [List.flatMap_cons, hhi.1, hlo.1]
    simp only [List.singleton_append, List.cons_append, List.nil_append, hexDecode,
      List.append_eq]
    rw [hhi.2, hlo.2, hrest]
    have h1 : ¬ (b / 16 > 15) := by omega
    have h2 : ¬ (b % 16 > 15) := by omega
    simp only [h1, h2, if_false, byte_of_digits b hb]

set_option maxRecDepth 100000 in
theorem crc8_table_bound : ∀ x ∈ crc8_MakeTable CRC8, x < 256 := by
  decide

theorem crc8_getD_bound (i : Nat) : (crc8_MakeTable CRC8).getD i 0 < 256 := by
  rw [List.getD_eq_getElem?_getD]
  cases h : (crc8_MakeTable CRC8)[i]? with
  | none => simp
  | some x =>
    have hx : x ∈ crc8_MakeTable CRC8 := List.mem_iff_getElem?.2 ⟨i, h⟩
    simpa using crc8_table_bound x hx

theorem crc8_Update_bound (data : List Nat) (crc : Nat) (hcrc : crc < 256) :
    crc8_Update crc data (crc8_MakeTable CRC8) < 256 := by
  induction data generalizing crc with
  | nil => simpa [crc8_Update] using hcrc
  | cons d data ih =>
    unfold crc8_Update at ih ⊢
    rw [List.foldl_cons]
    exact ih _ (crc8_getD_bound _)

theorem crc8_Checksum_bound (data : List Nat) :
    crc8_Checksum CRC8 data (crc8_MakeTable CRC8) < 256 := by
  unfold crc8_Checksum
  have : CRC8.XorOut = 0 := rfl
  rw [this, Nat.xor_zero]
  exact crc8_Update_bound data _ (by decide)

theorem encodeByte_nonblank (bs : List Nat) : ∀ s ∈ bs.flatMap encodeByte, s ≠ "" := by
  intro s hs
  rw [List.mem_flatMap] at hs
  obtain ⟨b, _, hb⟩ := hs
  unfold encodeByte at hb
  intro hcon
  subst hcon
  simp only [List.mem_cons, List.mem_singleton, List.not_mem_nil, or_false] at hb
  rcases hb with h | h <;>
  · have := congrArg String.data h
    simp at this

theorem decode_encoded (p : List Nat) (hp : ∀ b ∈ p, b < 256) :
    decode_and_verify_crc8_body (crc8_MakeTable CRC8) (String.join (dtmfEncode p))
      = DecodeOutcome.emit p := by
  have hall : ∀ b ∈ p ++ [crc8_Checksum CRC8 p (crc8_MakeTable CRC8)], b < 256 := by
    intro b hb
    rcases List.mem_append.1 hb with h | h
    · exact hp b h
    · rw [List.mem_singleton.1 h]
      exact crc8_Checksum_bound p
  have hdec : hexDecodeString (dtmf_to_hex (String.join (dtmfEncode p)))
      = (p ++ [crc8_Checksum CRC8 p (crc8_MakeTable CRC8)], none) := by
    unfold hexDecodeString dtmfEncode
    rw [goBytes_encode, hexDecode_encode _ hall]
  unfold decode_and_verify_crc8_body
  rw [hdec]
  simp [List.getD_eq_getElem?_getD]

/-- Claim C9, amended.  For every byte payload `p`, the raw stream in which every symbol of
its DTMF message is repeated 4 times, with no blank between symbols, and the last one is
followed by 20 blanks, makes `deduplicate`, `parse_message` and `decode_and_verify_crc8`,
chained from their initial states, emit exactly `p`, without a panic. -/
theorem pipeline_roundtrip_contiguous (p : List Nat) (hp : ∀ b ∈ p, b < 256) :
    pipeline (rawContiguous (dtmfEncode p)) = ([p], false) := by
  have hne : dtmfEncode p ≠ [] := by
    unfold dtmfEncode
    rw [List.flatMap_append]
    simp [encodeByte]
  have hnb : ∀ s ∈ dtmfEncode p, s ≠ "" := encodeByte_nonblank _
  unfold pipeline
  rw [dedup_rawContiguous]
  have hfr : sent (parse_message (dtmfEncode p ++ List.replicate 5 ""))
      = [String.join (dtmfEncode p)] := by
    unfold parse_message
    rw [framer_five_blanks _ hne hnb, sent_replicate_none]
    rfl
  rw [hfr]
  unfold decode_and_verify_crc8
  simp only [decode_loop, decode_encoded p hp]

/-- Claim C9, amended, at the payload `[0x31, 0xfe]`. -/
theorem pipeline_roundtrip_contiguous_witness :
    (∀ b ∈ [0x31, 0xfe], b < 256) ∧
    pipeline (rawContiguous (dtmfEncode [0x31, 0xfe])) = ([[0x31, 0xfe]], false) :=
  ⟨by decide, pipeline_roundtrip_contiguous [0x31, 0xfe] (by decide)⟩

/-- Claim C9 fails at the payload `[0x31]`: with 5 blanks after every symbol, `deduplicate`
passes one blank after every symbol, `parse_message` has counted only 4 blanks at the end
of the stream and emits no message, and the decoder emits nothing. -/
theorem separated_stream_emits_nothing :
    dtmfEncode [0x31] = ["3", "1", "9", "7"] ∧
    sent (deduplicate (rawSeparated (dtmfEncode [0x31])))
      = ["3", "", "1", "", "9", "", "7", ""] ∧
    sent (parse_message (sent (deduplicate (rawSeparated (dtmfEncode [0x31]))))) = [] ∧
    pipeline (rawSeparated (dtmfEncode [0x31])) = ([], false) ∧
    pipeline (rawSeparated (dtmfEncode [0x31])) ≠ ([[0x31]], false) := by
  decide

theorem goInt_natCast_div (q d : Nat) : goInt ((q : ℚ) * (1 / (d : ℚ))) = ((q / d : Nat) : Int) := by
  have h0 : (0 : ℚ) ≤ (q : ℚ) * (1 / (d : ℚ)) := by positivity
  unfold goInt
  rw [if_pos h0, mul_one_div, Rat.floor_natCast_div_natCast]
  rfl

theorem reader_batch (M : GoMath) (sr : Nat) :
    (dtmf_reader_setup M sr).batch = ((sr / 40 : Nat) : Int) := by
  unfold dtmf_reader_setup TONE_DURATION SPLITS
  simp only
  have h := goInt_natCast_div (sr / 4) 10
  rw [Nat.div_div_eq_div_mul] at h
  simpa using h

/-- For every sample rate `sr`, `dtmf_reader` constructs both filter banks with the same
buffer size, the constant 1024, and with sample rate `sr`; the number of samples read and
fed per block is `sr / 40` rounded down.  The two agree only for `40960 ≤ sr < 41000`. -/
theorem reader_block_length (M : GoMath) (sr : Nat) :
    (dtmf_reader_setup M sr).goert_low.BufferSize = 1024 ∧
    (dtmf_reader_setup M sr).goert_high.BufferSize = 1024 ∧
    (dtmf_reader_setup M sr).goert_low.SampleRate = sr ∧
    (dtmf_reader_setup M sr).goert_high.SampleRate = sr ∧
    (dtmf_reader_setup M sr).batch = ((sr / 40 : Nat) : Int) ∧
    ((dtmf_reader_setup M sr).goert_low.BufferSize = (dtmf_reader_setup M sr).batch ↔
      40960 ≤ sr ∧ sr < 41000) := by
  have hb := reader_batch M sr
  refine ⟨rfl, rfl, rfl, rfl, hb, ?_⟩
  rw [hb]
  have : (dtmf_reader_setup M sr).goert_low.BufferSize = 1024 := rfl
  rw [this]
  constructor
  · intro h
    have h' : sr / 40 = 1024 := by exact_mod_cast h.symm
    omega
  · rintro ⟨h1, h2⟩
    have h' : sr / 40 = 1024 := by omega
    rw [h']
    rfl

/-- At the sample rate 44100 both banks are built with the buffer size 1024, while 1102
samples are read per block. -/
theorem bank_size_differs_from_batch :
    (dtmf_reader_setup goMathApprox 44100).goert_low.BufferSize = 1024 ∧
    (dtmf_reader_setup goMathApprox 44100).goert_high.BufferSize = 1024 ∧
    (dtmf_reader_setup goMathApprox 44100).batch = 1102 ∧
    (dtmf_reader_setup goMathApprox 44100).goert_low.BufferSize
      ≠ (dtmf_reader_setup goMathApprox 44100).batch := by
  have hb := reader_batch goMathApprox 44100
  have hl : (dtmf_reader_setup goMathApprox 44100).goert_low.BufferSize = 1024 := rfl
  refine ⟨hl, rfl, ?_, ?_⟩
  · rw [hb]; rfl
  · rw [hb, hl]; decide

/-- With `count = 0`, or holding one blank, `deduplicate` answers 4 copies of a non-blank
symbol and 5 blanks by that symbol and one blank, and ends holding one blank. -/
theorem dedup_separated_block (st : DedupState) (s : String) (hs : s ≠ "")
    (hst : st.count = 0 ∨ st = ⟨"", 1⟩) :
    runStage deduplicate_body st (List.replicate 4 s ++ List.replicate 5 "")
      = (⟨"", 1⟩, [none, none, none, some s, none, none, none, some "", none]) := by
  have hs' : ¬ ("" = s) := fun h => hs h.symm
  rcases hst with h | h
  · obtain ⟨v, c⟩ := st
    simp only at h
    subst h
    simp [List.replicate, runStage, dedup_zero, dedup_same, dedup_emit_same]
  · subst h
    simp [List.replicate, runStage, dedup_zero, dedup_same, dedup_emit_same,
      dedup_diff "" s 1 (by omega) hs']

theorem dedup_rawSeparated (syms : List String) (hnb : ∀ s ∈ syms, s ≠ "") (st : DedupState)
    (hst : st.count = 0 ∨ st = ⟨"", 1⟩) :
    sent (runStage deduplicate_body st (rawSeparated syms)).2
      = syms.flatMap (fun s => [s, ""]) := by
  induction syms generalizing st with
  | nil => simp [rawSeparated, runStage, sent]
  | cons s syms ih =>
    have hs : s ≠ "" := hnb s (List.mem_cons_self _ _)
    have hrest := ih (fun x hx => hnb x (List.mem_cons_of_mem _ hx)) ⟨"", 1⟩ (Or.inr rfl)
    unfold rawSeparated at hrest ⊢
    rw [List.flatMap_cons, runStage_append, dedup_separated_block st s hs hst]
    unfold sent at hrest ⊢
    simp only [List.reduceOption_append, hrest, List.flatMap_cons]
    simp [List.reduceOption]

/-- Number of bytes that the hex decoder sees for a message. -/
theorem hexLen_append (a b : String) :
    (goBytes (dtmf_to_hex (a ++ b))).length
      = (goBytes (dtmf_to_hex a)).length + (goBytes (dtmf_to_hex b)).length := by
  unfold goBytes
  simp [dtmf_to_hex_data]

theorem hexDecode_odd : ∀ (n : Nat) (bs : List Nat), bs.length = 2 * n + 1 →
    (hexDecode bs).2 ≠ none := by
  intro n
  induction n with
  | zero =>
    intro bs hbs
    match bs, hbs with
    | [p], _ =>
      unfold hexDecode
      split <;> simp
  | succ n ih =>
    intro bs hbs
    match bs, hbs with
    | p :: q :: rest, h =>
      have hrest : rest.length = 2 * n + 1 := by
        simp only [List.length_cons] at h
        omega
      unfold hexDecode
      split
      · simp
      · split
        · simp
        · exact ih rest hrest

theorem decode_odd_skip (table : List Nat) (msg : String) (n : Nat)
    (h : (goBytes (dtmf_to_hex msg)).length = 2 * n + 1) :
    decode_and_verify_crc8_body table msg = DecodeOutcome.skip := by
  have herr := hexDecode_odd n _ h
  unfold decode_and_verify_crc8_body hexDecodeString
  rcases hdec : hexDecode (goBytes (dtmf_to_hex msg)) with ⟨d, _ | e⟩
  · rw [hdec] at herr
    exact absurd rfl herr
  · rfl

theorem decode_loop_all_odd (table : List Nat) (msgs : List String)
    (h : ∀ m ∈ msgs, (goBytes (dtmf_to_hex m)).length = 5) :
    decode_loop table msgs = ([], false) := by
  induction msgs with
  | nil => rfl
  | cons m msgs ih =>
    rw [decode_loop, decode_odd_skip table m 2 (h m (List.mem_cons_self _ _))]
    exact ih (fun x hx => h x (List.mem_cons_of_mem _ hx))

/-- Fed symbols of one hex byte each, with one blank after every symbol, `parse_message`
only emits messages of 5 bytes. -/
theorem parse_interleaved (syms : List String) (hnb : ∀ s ∈ syms, s ≠ "")
    (hone : ∀ s ∈ syms, (goBytes (dtmf_to_hex s)).length = 1) (st : ParseState)
    (hb : st.blanks ≤ 4) (hmsg : (goBytes (dtmf_to_hex st.msg)).length = st.blanks) :
    ∀ m ∈ sent (runStage parse_message_body st (syms.flatMap (fun s => [s, ""]))).2,
      (goBytes (dtmf_to_hex m)).length = 5 := by
  induction syms generalizing st with
  | nil => simp [runStage, sent]
  | cons s syms ih =>
    have hs : s ≠ "" := hnb s (List.mem_cons_self _ _)
    have h1 : (goBytes (dtmf_to_hex s)).length = 1 := hone s (List.mem_cons_self _ _)
    have hnb' : ∀ x ∈ syms, x ≠ "" := fun x hx => hnb x (List.mem_cons_of_mem _ hx)
    have hone' : ∀ x ∈ syms, (goBytes (dtmf_to_hex x)).length = 1 :=
      fun x hx => hone x (List.mem_cons_of_mem _ hx)
    have hlen : (goBytes (dtmf_to_hex (st.msg ++ s))).length = st.blanks + 1 := by
      rw [hexLen_append, hmsg, h1]
    have hne : st.msg ++ s ≠ "" := by
      intro hcon
      have := congrArg String.data hcon
      have hz : s.data = [] := by
        have h2 : st.msg.data ++ s.data = [] := by simpa using this
        exact (List.append_eq_nil.1 h2).2
      exact hs (String.ext hz)
    rw [List.flatMap_cons, show [s, ""] = [s] ++ [""] from rfl, List.append_assoc,
      runStage_append, runStage_append]
    simp only [runStage, parse_nonblank st s hs]
    by_cases h4 : st.blanks = 4
    · rw [parse_blank_emit ⟨st.blanks, st.msg ++ s⟩ (by simp [h4]) hne]
      intro m hm
      unfold sent at hm
      simp only [List.reduceOption_append, List.mem_append] at hm
      rcases hm with hm | hm | hm
      · simp [List.reduceOption] at hm
      · have : m = st.msg ++ s := by simpa [List.reduceOption] using hm
        rw [this, hlen, h4]
      · exact ih hnb' hone' ⟨0, ""⟩ (by simp) (by decide) m hm
    · rw [parse_blank_count ⟨st.blanks, st.msg ++ s⟩ (Or.inl (by simp; omega))]
      intro m hm
      unfold sent at hm
      simp only [List.reduceOption_append, List.mem_append] at hm
      rcases hm with hm | hm | hm
      · simp [List.reduceOption] at hm
      · simp [List.reduceOption] at hm
      · exact ih hnb' hone' ⟨st.blanks + 1, st.msg ++ s⟩ (by simp; omega) hlen m hm

theorem encodeByte_one_byte (bs : List Nat) :
    ∀ s ∈ bs.flatMap encodeByte, (goBytes (dtmf_to_hex s)).length = 1 := by
  have hdigit : ∀ n, (utf8Bytes (hexRune (dtmfDigit n))).length = 1 := by
    intro n
    by_cases hn : n < 16
    · rw [(hex_digit_roundtrip n hn).1]; rfl
    · have : dtmfDigit n = '0' := by
        unfold dtmfDigit
        rw [List.getD_eq_getElem?_getD, List.getElem?_eq_none (by simp [dtmfDigits]; omega)]
        rfl
      rw [this]; decide
  intro s hs
  rw [List.mem_flatMap] at hs
  obtain ⟨b, _, hb⟩ := hs
  unfold encodeByte at hb
  simp only [List.mem_cons, List.mem_singleton, List.not_mem_nil, or_false] at hb
  rcases hb with h | h <;>
  · subst h
    unfold goBytes
    rw [dtmf_to_hex_data]
    simp [hdigit]

/-- With 5 blanks after every symbol of the DTMF message, the decoder emits nothing,
whatever the payload. -/
theorem separated_never_emits (p : List Nat) :
    pipeline (rawSeparated (dtmfEncode p)) = ([], false) := by
  have hnb : ∀ s ∈ dtmfEncode p, s ≠ "" := encodeByte_nonblank _
  have hone : ∀ s ∈ dtmfEncode p, (goBytes (dtmf_to_hex s)).length = 1 :=
    encodeByte_one_byte _
  unfold pipeline deduplicate parse_message decode_and_verify_crc8
  rw [dedup_rawSeparated (dtmfEncode p) hnb deduplicate_init (Or.inl rfl)]
  apply decode_loop_all_odd
  exact parse_interleaved (dtmfEncode p) hnb hone parse_message_init (by decide) (by decide)


theorem goInt_natCast (n : Nat) : goInt (n : ℚ) = (n : Int) := by
  unfold goInt
  rw [if_pos (by positivity)]
  exact Int.floor_natCast n

theorem goInt_low : frequencies_low.map goInt = [697, 770, 852, 941] := by
  have h := fun n => goInt_natCast n
  simp only [frequencies_low, List.map]
  rw [show (697 : ℚ) = ((697 : ℕ) : ℚ) by norm_num, show (770 : ℚ) = ((770 : ℕ) : ℚ) by norm_num,
    show (852 : ℚ) = ((852 : ℕ) : ℚ) by norm_num, show (941 : ℚ) = ((941 : ℕ) : ℚ) by norm_num]
  simp only [h]
  rfl

theorem goInt_high : frequencies_high.map goInt = [1209, 1336, 1477, 1633] := by
  have h := fun n => goInt_natCast n
  simp only [frequencies_high, List.map]
  rw [show (1209 : ℚ) = ((1209 : ℕ) : ℚ) by norm_num,
    show (1336 : ℚ) = ((1336 : ℕ) : ℚ) by norm_num,
    show (1477 : ℚ) = ((1477 : ℕ) : ℚ) by norm_num,
    show (1633 : ℚ) = ((1633 : ℕ) : ℚ) by norm_num]
  simp only [h]
  rfl

/-- The selection loop on four magnitudes, unrolled: the last qualifying index wins. -/
theorem selectLoop_four (t avg f0 f1 f2 f3 m0 m1 m2 m3 : ℚ) :
    selectLoop t [f0, f1, f2, f3] avg [m0, m1, m2, m3] =
      if m3 > t ∧ m3 > avg * DETECT then goInt f3
      else if m2 > t ∧ m2 > avg * DETECT then goInt f2
      else if m1 > t ∧ m1 > avg * DETECT then goInt f1
      else if m0 > t ∧ m0 > avg * DETECT then goInt f0
      else 0 := by
  simp only [selectLoop, List.enum, List.enumFrom, List.foldl, List.getD_cons_zero,
    List.getD_cons_succ]

theorem floats_Sum_four (m0 m1 m2 m3 : ℚ) : floats_Sum [m0, m1, m2, m3] = m0 + m1 + m2 + m3 := by
  simp [floats_Sum]

theorem select_low_four (m0 m1 m2 m3 : ℚ) :
    select_low [m0, m1, m2, m3] =
      if m3 > LOW ∧ m3 > (m0 + m1 + m2 + m3) / 4 * DETECT then 941
      else if m2 > LOW ∧ m2 > (m0 + m1 + m2 + m3) / 4 * DETECT then 852
      else if m1 > LOW ∧ m1 > (m0 + m1 + m2 + m3) / 4 * DETECT then 770
      else if m0 > LOW ∧ m0 > (m0 + m1 + m2 + m3) / 4 * DETECT then 697
      else 0 := by
  have h := goInt_low
  simp only [frequencies_low, List.map, List.cons.injEq, and_true] at h
  obtain ⟨h0, h1, h2, h3⟩ := h
  unfold select_low
  rw [floats_Sum_four]
  simp only [frequencies_low, selectLoop_four, h0, h1, h2, h3, List.length_cons,
    List.length_nil]
  norm_num

theorem select_high_four (m0 m1 m2 m3 : ℚ) :
    select_high [m0, m1, m2, m3] =
      if m3 > HIGH ∧ m3 > (m0 + m1 + m2 + m3) / 4 * DETECT then 1633
      else if m2 > HIGH ∧ m2 > (m0 + m1 + m2 + m3) / 4 * DETECT then 1477
      else if m1 > HIGH ∧ m1 > (m0 + m1 + m2 + m3) / 4 * DETECT then 1336
      else if m0 > HIGH ∧ m0 > (m0 + m1 + m2 + m3) / 4 * DETECT then 1209
      else 0 := by
  have h := goInt_high
  simp only [frequencies_high, List.map, List.cons.injEq, and_true] at h
  obtain ⟨h0, h1, h2, h3⟩ := h
  unfold select_high
  rw [floats_Sum_four]
  simp only [frequencies_high, selectLoop_four, h0, h1, h2, h3, List.length_cons,
    List.length_nil]
  norm_num

theorem list_length_four {α : Type} (l : List α) (h : l.length = 4) :
    ∃ a b c d, l = [a, b, c, d] := by
  match l, h with
  | [a, b, c, d], _ => exact ⟨a, b, c, d, rfl⟩

theorem qualifies_four (t m0 m1 m2 m3 : ℚ) :
    (qualifies t [m0, m1, m2, m3] 0 ↔ m0 > t ∧ m0 > (m0 + m1 + m2 + m3) / 4 * DETECT) ∧
    (qualifies t [m0, m1, m2, m3] 1 ↔ m1 > t ∧ m1 > (m0 + m1 + m2 + m3) / 4 * DETECT) ∧
    (qualifies t [m0, m1, m2, m3] 2 ↔ m2 > t ∧ m2 > (m0 + m1 + m2 + m3) / 4 * DETECT) ∧
    (qualifies t [m0, m1, m2, m3] 3 ↔ m3 > t ∧ m3 > (m0 + m1 + m2 + m3) / 4 * DETECT) := by
  have hs : m0 + (m1 + (m2 + m3)) = m0 + m1 + m2 + m3 := by ring
  have h4 : ((0 : ℚ) + 1 + 1 + 1 + 1) = 4 := by norm_num
  simp only [qualifies, exceedsMean, DETECT, List.getD_cons_zero, List.getD_cons_succ, List.sum_cons,
    List.sum_nil, add_zero, List.length_cons, List.length_nil, Nat.cast_add, Nat.cast_one,
    Nat.cast_zero, hs, h4, and_self]

/-- The selection of either group picks the greatest qualifying index, and 0 without one. -/
theorem select_greatest_index (t : ℚ) (mags : List ℚ) (sel : Int) (f0 f1 f2 f3 : Int)
    (hsel : ∀ m0 m1 m2 m3 : ℚ, mags = [m0, m1, m2, m3] → sel =
      if m3 > t ∧ m3 > (m0 + m1 + m2 + m3) / 4 * DETECT then f3
      else if m2 > t ∧ m2 > (m0 + m1 + m2 + m3) / 4 * DETECT then f2
      else if m1 > t ∧ m1 > (m0 + m1 + m2 + m3) / 4 * DETECT then f1
      else if m0 > t ∧ m0 > (m0 + m1 + m2 + m3) / 4 * DETECT then f0
      else 0)
    (hlen : mags.length = 4) :
    (∀ n, n < 4 → qualifies t mags n → (∀ m, n < m → m < 4 → ¬ qualifies t mags m) →
      sel = [f0, f1, f2, f3].getD n 0) ∧
    ((∀ n, n < 4 → ¬ qualifies t mags n) → sel = 0) := by
  obtain ⟨m0, m1, m2, m3, rfl⟩ := list_length_four mags hlen
  rw [hsel m0 m1 m2 m3 rfl]
  obtain ⟨q0, q1, q2, q3⟩ := qualifies_four t m0 m1 m2 m3
  constructor
  · intro n hn hq hlast
    have hcases : n = 0 ∨ n = 1 ∨ n = 2 ∨ n = 3 := by omega
    rcases hcases with rfl | rfl | rfl | rfl
    · have n1 := hlast 1 (by omega) (by omega)
      have n2 := hlast 2 (by omega) (by omega)
      have n3 := hlast 3 (by omega) (by omega)
      rw [q1] at n1; rw [q2] at n2; rw [q3] at n3; rw [q0] at hq
      rw [if_neg n3, if_neg n2, if_neg n1, if_pos hq]
      rfl
    · have n2 := hlast 2 (by omega) (by omega)
      have n3 := hlast 3 (by omega) (by omega)
      rw [q2] at n2; rw [q3] at n3; rw [q1] at hq
      rw [if_neg n3, if_neg n2, if_pos hq]
      rfl
    · have n3 := hlast 3 (by omega) (by omega)
      rw [q3] at n3; rw [q2] at hq
      rw [if_neg n3, if_pos hq]
      rfl
    · rw [q3] at hq
      rw [if_pos hq]
      rfl
  · intro hnone
    have n0 := hnone 0 (by omega)
    have n1 := hnone 1 (by omega)
    have n2 := hnone 2 (by omega)
    have n3 := hnone 3 (by omega)
    rw [q0] at n0; rw [q1] at n1; rw [q2] at n2; rw [q3] at n3
    rw [if_neg n3, if_neg n2, if_neg n1, if_neg n0]

/-- Claim C11.  For four low-group magnitudes, whatever their values, `dtmf_reader` selects
the low frequency at the greatest index, in the order 697, 770, 852, 941, whose magnitude
exceeds 1.0 and exceeds the mean of the magnitudes times 2.5, and selects none (`low`
stays 0) when no index qualifies; a later qualifying bucket wins over an earlier one,
whichever is stronger.  The high group is selected in the same way with the threshold 0.1
over 1209, 1336, 1477, 1633. -/
theorem selection_last_candidate (lows highs : List ℚ) (hl : lows.length = 4)
    (hh : highs.length = 4) :
    (∀ n, n < 4 → qualifies 1 lows n → (∀ m, n < m → m < 4 → ¬ qualifies 1 lows m) →
      select_low lows = [697, 770, 852, 941].getD n 0) ∧
    ((∀ n, n < 4 → ¬ qualifies 1 lows n) → select_low lows = 0) ∧
    (∀ n, n < 4 → qualifies (1 / 10) highs n →
      (∀ m, n < m → m < 4 → ¬ qualifies (1 / 10) highs m) →
      select_high highs = [1209, 1336, 1477, 1633].getD n 0) ∧
    ((∀ n, n < 4 → ¬ qualifies (1 / 10) highs n) → select_high highs = 0) := by
  have hlow := select_greatest_index 1 lows (select_low lows) 697 770 852 941
    (fun m0 m1 m2 m3 h => by rw [h, select_low_four]; rfl) hl
  have hhigh := select_greatest_index (1 / 10) highs (select_high highs) 1209 1336 1477 1633
    (fun m0 m1 m2 m3 h => by rw [h, select_high_four]; rfl) hh
  exact ⟨hlow.1, hlow.2, hhigh.1, hhigh.2⟩

/-- Claim C11 at the low magnitudes `[100, 10, -200, -200]`: buckets 0 and 1 both qualify,
and 770, the later one, is selected although 697 is stronger. -/
theorem selection_last_candidate_witness :
    qualifies 1 [100, 10, -200, -200] 0 ∧ qualifies 1 [100, 10, -200, -200] 1 ∧
    select_low [100, 10, -200, -200] = [697, 770, 852, 941].getD 1 0 :=
  ⟨by norm_num [qualifies, exceedsMean], by norm_num [qualifies, exceedsMean],
    (selection_last_candidate [100, 10, -200, -200] [0, 0, 0, 0] rfl rfl).1 1 (by omega)
      (by norm_num [qualifies, exceedsMean])
      (by
        intro m h1 h2
        have hm : m = 2 ∨ m = 3 := by omega
        rcases hm with rfl | rfl <;> norm_num [qualifies, exceedsMean])⟩

theorem select_low_mem (lows : List ℚ) (hl : lows.length = 4) :
    select_low lows ∈ [(0 : Int), 697, 770, 852, 941] := by
  obtain ⟨m0, m1, m2, m3, rfl⟩ := list_length_four lows hl
  rw [select_low_four]
  split_ifs <;> simp

theorem select_high_mem (highs : List ℚ) (hh : highs.length = 4) :
    select_high highs ∈ [(0 : Int), 1209, 1336, 1477, 1633] := by
  obtain ⟨m0, m1, m2, m3, rfl⟩ := list_length_four highs hh
  rw [select_high_four]
  split_ifs <;> simp

theorem lookupSymbol_table :
    ∀ low ∈ [(0 : Int), 697, 770, 852, 941], ∀ high ∈ [(0 : Int), 1209, 1336, 1477, 1633],
      (lookupSymbol low high = "" ↔ (low = 0 ∨ high = 0)) ∧
      (low ≠ 0 → high ≠ 0 →
        lookupSymbol low high = mapIndex "" (mapIndex [] DTMF_MAP low) high) := by
  decide

/-- Claim C12.  The symbol of a block is empty exactly when no low or no high frequency
was selected, and is the `DTMF_MAP` entry of the selected pair otherwise.  `DTMF_MAP` has
an entry for all 16 pairs, laid out as the standard keypad, and its 16 symbols are
one-character strings, pairwise distinct; so a non-empty symbol is sent whenever both
frequencies are selected. -/
theorem symbol_lookup (lows highs : List ℚ) (hl : lows.length = 4) (hh : highs.length = 4) :
    (classify lows highs = "" ↔ (select_low lows = 0 ∨ select_high highs = 0)) ∧
    (select_low lows ≠ 0 → select_high highs ≠ 0 →
      classify lows highs
        = mapIndex "" (mapIndex [] DTMF_MAP (select_low lows)) (select_high highs)) ∧
    [(697 : Int), 770, 852, 941].map (fun low =>
        [(1209 : Int), 1336, 1477, 1633].map (fun high =>
          ((DTMF_MAP.lookup low).bind (fun row => row.lookup high))))
      = [[some "1", some "2", some "3", some "A"],
         [some "4", some "5", some "6", some "B"],
         [some "7", some "8", some "9", some "C"],
         [some "*", some "0", some "#", some "D"]] ∧
    ([(697 : Int), 770, 852, 941].flatMap (fun low =>
        [(1209 : Int), 1336, 1477, 1633].map (fun high => lookupSymbol low high))).Nodup ∧
    (∀ low ∈ [(697 : Int), 770, 852, 941], ∀ high ∈ [(1209 : Int), 1336, 1477, 1633],
      (lookupSymbol low high).length = 1) := by
  have h := lookupSymbol_table (select_low lows) (select_low_mem lows hl) (select_high highs)
    (select_high_mem highs hh)
  exact ⟨h.1, h.2, by decide, by decide, by decide⟩

/-- Claim C12 at the magnitudes of a block with the tones 941 Hz and 1336 Hz: the symbol
is `0`. -/
theorem symbol_lookup_witness :
    [(0 : ℚ), 0, 0, 50].length = 4 ∧ [(0 : ℚ), 3, 0, 0].length = 4 ∧
    select_low [0, 0, 0, 50] = 941 ∧ select_high [0, 3, 0, 0] = 1336 ∧
    classify [0, 0, 0, 50] [0, 3, 0, 0]
      = mapIndex "" (mapIndex [] DTMF_MAP (select_low [0, 0, 0, 50]))
          (select_high [0, 3, 0, 0]) ∧
    mapIndex "" (mapIndex [] DTMF_MAP 941) 1336 = "0" :=
  have h1 : select_low [0, 0, 0, 50] = 941 := by
    rw [select_low_four]; norm_num [LOW, DETECT]
  have h2 : select_high [0, 3, 0, 0] = 1336 := by
    rw [select_high_four]; norm_num [HIGH, DETECT]
  ⟨rfl, rfl, h1, h2,
    (symbol_lookup [0, 0, 0, 50] [0, 3, 0, 0] rfl rfl).2.1 (by rw [h1]; decide)
      (by rw [h2]; decide),
    by decide⟩

theorem dtmf_reader_body_next (s : ReaderState) (read : Except ReadError (List ℚ)) :
    (dtmf_reader_body s read).2.2 = Control.next := by
  cases read <;> rfl

theorem reader_loop_length (s : ReaderState) (reads : List (Except ReadError (List ℚ))) :
    (runLoop dtmf_reader_body s reads).length = reads.length := by
  induction reads generalizing s with
  | nil => rfl
  | cons r rs ih =>
    rw [runLoop]
    have h := dtmf_reader_body_next s r
    split
    · simp [ih]
    · rename_i hl
      rw [h] at hl
      exact absurd hl (by decide)

/-- Claim C13, amended.  When the read operation of the audio source reports an error,
terminal or not, the iteration of `dtmf_reader` sends no symbol, leaves the state as it
was and ends with `continue`: the loop goes on with the next read.  The loop never ends:
it performs every read it is given. -/
theorem read_error_continues (s : ReaderState) (e : ReadError)
    (rest : List (Except ReadError (List ℚ))) :
    dtmf_reader_body s (Except.error e) = (s, none, Control.next) ∧
    runLoop dtmf_reader_body s (Except.error e :: rest)
      = none :: runLoop dtmf_reader_body s rest ∧
    (runLoop dtmf_reader_body s (Except.error e :: rest)).length = rest.length + 1 := by
  refine ⟨rfl, ?_, ?_⟩
  · rw [runLoop]
    rfl
  · rw [reader_loop_length]
    rfl

/-- Claim C13 fails at a terminal error followed by one more read: the iteration that gets
the terminal error ends with the next iteration, and the loop performs the second read. -/
theorem terminal_error_reads_again :
    (dtmf_reader_body (dtmf_reader_init goMathApprox 8000)
        (Except.error ReadError.terminal)).2.2 = Control.next ∧
    (dtmf_reader_body (dtmf_reader_init goMathApprox 8000)
        (Except.error ReadError.terminal)).2.2 ≠ Control.leave ∧
    (dtmf_reader goMathApprox 8000
        [Except.error ReadError.terminal, Except.ok []]).length = 2 := by
  refine ⟨rfl, by decide, ?_⟩
  unfold dtmf_reader
  rw [reader_loop_length]
  rfl

/-- Claim C15.  For every bucket with `sine^2 + cosine^2 = 1` and `coeff = 2 * cosine`, in
any filter state, the relative magnitude that `calcMagnitudeSquared` stores,
`Q1^2 + Q2^2 - Q1 * Q2 * coeff`, equals `RealPart^2 + ImagPart^2` of the complex result
that `CalcRealImag` stores (`RealPart = Q1 - Q2 * cosine`, `ImagPart = Q2 * sine`), in
exact arithmetic; hence it is non-negative. -/
theorem magnitude_eq_real_imag (G : Goertzel) (i : Nat) (fB : FrequencyBucket)
    (hi : G.freqBucket[i]? = some fB)
    (hunit : fB.sine ^ 2 + fB.cosine ^ 2 = 1) (hcoeff : fB.coeff = 2 * fB.cosine) :
    ((calcMagnitudeSquared G).freqBucket[i]?).map (fun b => b.MagnitureSquared)
      = some (fB.Q1 ^ 2 + fB.Q2 ^ 2 - fB.Q1 * fB.Q2 * fB.coeff) ∧
    ((CalcRealImag G).freqBucket[i]?).map (fun b => (b.RealPart, b.ImagPart))
      = some (fB.Q1 - fB.Q2 * fB.cosine, fB.Q2 * fB.sine) ∧
    ((calcMagnitudeSquared G).freqBucket[i]?).map (fun b => b.MagnitureSquared)
      = ((CalcRealImag G).freqBucket[i]?).map (fun b => b.RealPart ^ 2 + b.ImagPart ^ 2) ∧
    0 ≤ fB.Q1 ^ 2 + fB.Q2 ^ 2 - fB.Q1 * fB.Q2 * fB.coeff := by
  have hid : fB.Q1 ^ 2 + fB.Q2 ^ 2 - fB.Q1 * fB.Q2 * fB.coeff
      = (fB.Q1 - fB.Q2 * fB.cosine) ^ 2 + (fB.Q2 * fB.sine) ^ 2 := by
    rw [hcoeff]
    have : (fB.Q2 * fB.sine) ^ 2 = fB.Q2 ^ 2 * (1 - fB.cosine ^ 2) := by
      rw [← hunit]; ring
    rw [this]; ring
  refine ⟨?_, ?_, ?_, ?_⟩
  · simp only [calcMagnitudeSquared, List.getElem?_map, hi, Option.map_some', Option.some.injEq]
    ring
  · simp only [CalcRealImag, List.getElem?_map, hi, Option.map_some']
  · simp only [calcMagnitudeSquared, CalcRealImag, List.getElem?_map, hi, Option.map_some',
      Option.some.injEq]
    rw [← hid]; ring
  · rw [hid]; positivity

/-- Claim C15 at a bucket with `sine = 3/5`, `cosine = 4/5`, `coeff = 8/5` in the state
`Q1 = 1`, `Q2 = 2`: both magnitudes are `9/5`. -/
theorem magnitude_eq_real_imag_witness :
    ((3 / 5 : ℚ) ^ 2 + (4 / 5) ^ 2 = 1) ∧ ((8 / 5 : ℚ) = 2 * (4 / 5)) ∧
    ((calcMagnitudeSquared ⟨8000, 1024, [⟨697, 8 / 5, 1, 2, 3 / 5, 4 / 5, 0, 0, 0⟩]⟩).freqBucket[0]?).map
        (fun b => b.MagnitureSquared)
      = ((CalcRealImag ⟨8000, 1024, [⟨697, 8 / 5, 1, 2, 3 / 5, 4 / 5, 0, 0, 0⟩]⟩).freqBucket[0]?).map
        (fun b => b.RealPart ^ 2 + b.ImagPart ^ 2) :=
  ⟨by norm_num, by norm_num,
    (magnitude_eq_real_imag ⟨8000, 1024, [⟨697, 8 / 5, 1, 2, 3 / 5, 4 / 5, 0, 0, 0⟩]⟩ 0
      ⟨697, 8 / 5, 1, 2, 3 / 5, 4 / 5, 0, 0, 0⟩ rfl (by norm_num) (by norm_num)).2.2.1⟩

theorem exceedsMean_four (m0 m1 m2 m3 : ℚ) :
    (exceedsMean [m0, m1, m2, m3] 0 ↔ m0 > (m0 + m1 + m2 + m3) / 4 * DETECT) ∧
    (exceedsMean [m0, m1, m2, m3] 1 ↔ m1 > (m0 + m1 + m2 + m3) / 4 * DETECT) ∧
    (exceedsMean [m0, m1, m2, m3] 2 ↔ m2 > (m0 + m1 + m2 + m3) / 4 * DETECT) ∧
    (exceedsMean [m0, m1, m2, m3] 3 ↔ m3 > (m0 + m1 + m2 + m3) / 4 * DETECT) := by
  have hs : m0 + (m1 + (m2 + m3)) = m0 + m1 + m2 + m3 := by ring
  have h4 : ((0 : ℚ) + 1 + 1 + 1 + 1) = 4 := by norm_num
  simp only [exceedsMean, DETECT, List.getD_cons_zero, List.getD_cons_succ, List.sum_cons,
    List.sum_nil, add_zero, List.length_cons, List.length_nil, Nat.cast_add, Nat.cast_one,
    Nat.cast_zero, hs, h4, and_self]

/-- The strongest-wins selection on four magnitudes, unrolled. -/
theorem selectStrongest_four (t avg f0 f1 f2 f3 m0 m1 m2 m3 : ℚ) :
    selectStrongest t [f0, f1, f2, f3] avg [m0, m1, m2, m3] =
      (([(0, m0, f0), (1, m1, f1), (2, m2, f2), (3, m3, f3)] : List (Nat × ℚ × ℚ)).foldl
        (fun (acc : Int × ℚ) x =>
          if x.2.1 > t ∧ x.2.1 > avg * DETECT ∧ (acc.1 = 0 ∨ x.2.1 > acc.2) then
            (goInt x.2.2, x.2.1)
          else acc)
        (0, 0)).1 := by
  simp only [selectStrongest, List.enum, List.enumFrom, List.foldl, List.getD_cons_zero,
    List.getD_cons_succ]

/-- On four non-negative magnitudes at most one exceeds the mean times 2.5. -/
theorem exceeds_unique (m0 m1 m2 m3 : ℚ) (h0 : 0 ≤ m0) (h1 : 0 ≤ m1) (h2 : 0 ≤ m2)
    (h3 : 0 ≤ m3) :
    ¬ (m0 > (m0 + m1 + m2 + m3) / 4 * DETECT ∧ m1 > (m0 + m1 + m2 + m3) / 4 * DETECT) ∧
    ¬ (m0 > (m0 + m1 + m2 + m3) / 4 * DETECT ∧ m2 > (m0 + m1 + m2 + m3) / 4 * DETECT) ∧
    ¬ (m0 > (m0 + m1 + m2 + m3) / 4 * DETECT ∧ m3 > (m0 + m1 + m2 + m3) / 4 * DETECT) ∧
    ¬ (m1 > (m0 + m1 + m2 + m3) / 4 * DETECT ∧ m2 > (m0 + m1 + m2 + m3) / 4 * DETECT) ∧
    ¬ (m1 > (m0 + m1 + m2 + m3) / 4 * DETECT ∧ m3 > (m0 + m1 + m2 + m3) / 4 * DETECT) ∧
    ¬ (m2 > (m0 + m1 + m2 + m3) / 4 * DETECT ∧ m3 > (m0 + m1 + m2 + m3) / 4 * DETECT) := by
  unfold DETECT
  refine ⟨?_, ?_, ?_, ?_, ?_, ?_⟩ <;>
  · rintro ⟨ha, hb⟩
    linarith

theorem selectLoop_eq_strongest (t avg f0 f1 f2 f3 m0 m1 m2 m3 : ℚ)
    (h01 : ¬ (m0 > avg * DETECT ∧ m1 > avg * DETECT))
    (h02 : ¬ (m0 > avg * DETECT ∧ m2 > avg * DETECT))
    (h03 : ¬ (m0 > avg * DETECT ∧ m3 > avg * DETECT))
    (h12 : ¬ (m1 > avg * DETECT ∧ m2 > avg * DETECT))
    (h13 : ¬ (m1 > avg * DETECT ∧ m3 > avg * DETECT))
    (h23 : ¬ (m2 > avg * DETECT ∧ m3 > avg * DETECT)) :
    selectLoop t [f0, f1, f2, f3] avg [m0, m1, m2, m3]
      = selectStrongest t [f0, f1, f2, f3] avg [m0, m1, m2, m3] := by
  rw [selectLoop_four, selectStrongest_four]
  simp only [List.foldl]
  by_cases e0 : m0 > avg * DETECT <;> by_cases e1 : m1 > avg * DETECT <;>
    by_cases e2 : m2 > avg * DETECT <;> by_cases e3 : m3 > avg * DETECT <;>
    simp only [e0, e1, e2, e3, and_self, not_true_eq_false, and_false, false_and, and_true,
      true_and, if_false, true_or, or_true, not_false_eq_true] at h01 h02 h03 h12 h13 h23 ⊢ <;>
    split_ifs <;> rfl

theorem magnitude_nonneg (q1 q2 coeff : ℚ) (hc : |coeff| ≤ 2) :
    0 ≤ q1 * q1 + q2 * q2 - q1 * q2 * coeff := by
  obtain ⟨hlo, hhi⟩ := abs_le.1 hc
  have h1 : 0 ≤ (q1 - q2) ^ 2 := sq_nonneg _
  have h2 : 0 ≤ (q1 + q2) ^ 2 := sq_nonneg _
  nlinarith [mul_nonneg (sub_nonneg.2 hhi) h2, mul_nonneg (sub_nonneg.2 hlo) h1]

/-- Claim C17.  On four non-negative magnitudes at most one bucket exceeds the mean of the
magnitudes times 2.5, and a bucket that does has strictly the greatest magnitude of the
four; so no two buckets qualify together, and the selection of `dtmf_reader`, in which the
last candidate wins, returns what a selection in which the strongest candidate wins
returns.  The magnitudes that `calcMagnitudeSquared` stores are non-negative, in exact
arithmetic, when every `coeff` is at most 2 in absolute value. -/
theorem detected_bucket_unique (mags : List ℚ) (hlen : mags.length = 4)
    (hnn : ∀ x ∈ mags, 0 ≤ x) :
    (∀ i j, i < 4 → j < 4 → i ≠ j → ¬ (exceedsMean mags i ∧ exceedsMean mags j)) ∧
    (∀ i j, i < 4 → j < 4 → i ≠ j → exceedsMean mags i → mags.getD j 0 < mags.getD i 0) ∧
    (∀ t i j, i < 4 → j < 4 → i ≠ j → ¬ (qualifies t mags i ∧ qualifies t mags j)) ∧
    select_low mags
      = selectStrongest LOW frequencies_low (floats_Sum mags / (mags.length : ℚ)) mags ∧
    select_high mags
      = selectStrongest HIGH frequencies_high (floats_Sum mags / (mags.length : ℚ)) mags ∧
    (∀ G : Goertzel, (∀ fB ∈ G.freqBucket, |fB.coeff| ≤ 2) →
      ∀ fB ∈ (calcMagnitudeSquared G).freqBucket, 0 ≤ fB.MagnitureSquared) := by
  obtain ⟨m0, m1, m2, m3, rfl⟩ := list_length_four mags hlen
  have h0 : 0 ≤ m0 := hnn m0 (by simp)
  have h1 : 0 ≤ m1 := hnn m1 (by simp)
  have h2 : 0 ≤ m2 := hnn m2 (by simp)
  have h3 : 0 ≤ m3 := hnn m3 (by simp)
  obtain ⟨e0, e1, e2, e3⟩ := exceedsMean_four m0 m1 m2 m3
  obtain ⟨u01, u02, u03, u12, u13, u23⟩ := exceeds_unique m0 m1 m2 m3 h0 h1 h2 h3
  have huniq : ∀ i j, i < 4 → j < 4 → i ≠ j →
      ¬ (exceedsMean [m0, m1, m2, m3] i ∧ exceedsMean [m0, m1, m2, m3] j) := by
    intro i j hi hj hij
    have hci : i = 0 ∨ i = 1 ∨ i = 2 ∨ i = 3 := by omega
    have hcj : j = 0 ∨ j = 1 ∨ j = 2 ∨ j = 3 := by omega
    rcases hci with rfl | rfl | rfl | rfl <;> rcases hcj with rfl | rfl | rfl | rfl <;>
      first
      | (exfalso; omega)
      | (simp only [e0, e1, e2, e3]
         rintro ⟨ha, hb⟩
         first
         | exact u01 ⟨ha, hb⟩ | exact u01 ⟨hb, ha⟩ | exact u02 ⟨ha, hb⟩ | exact u02 ⟨hb, ha⟩
         | exact u03 ⟨ha, hb⟩ | exact u03 ⟨hb, ha⟩ | exact u12 ⟨ha, hb⟩ | exact u12 ⟨hb, ha⟩
         | exact u13 ⟨ha, hb⟩ | exact u13 ⟨hb, ha⟩ | exact u23 ⟨ha, hb⟩ | exact u23 ⟨hb, ha⟩)
  have hsum : floats_Sum [m0, m1, m2, m3] / (([m0, m1, m2, m3] : List ℚ).length : ℚ)
      = (m0 + m1 + m2 + m3) / 4 := by
    rw [floats_Sum_four]
    norm_num
  refine ⟨huniq, ?_, ?_, ?_, ?_, ?_⟩
  · intro i j hi hj hij hex
    have hnj : ¬ exceedsMean [m0, m1, m2, m3] j := fun h => huniq i j hi hj hij ⟨hex, h⟩
    have hci : i = 0 ∨ i = 1 ∨ i = 2 ∨ i = 3 := by omega
    have hcj : j = 0 ∨ j = 1 ∨ j = 2 ∨ j = 3 := by omega
    rcases hci with rfl | rfl | rfl | rfl <;> rcases hcj with rfl | rfl | rfl | rfl <;>
      first
      | (exfalso; omega)
      | (simp only [e0, e1, e2, e3] at hex hnj
         simp only [List.getD_cons_zero, List.getD_cons_succ]
         linarith)
  · intro t i j hi hj hij hq
    exact huniq i j hi hj hij ⟨hq.1.2, hq.2.2⟩
  · unfold select_low
    rw [hsum]
    exact selectLoop_eq_strongest _ _ _ _ _ _ _ _ _ _ u01 u02 u03 u12 u13 u23
  · unfold select_high
    rw [hsum]
    exact selectLoop_eq_strongest _ _ _ _ _ _ _ _ _ _ u01 u02 u03 u12 u13 u23
  · intro G hG fB hfB
    unfold calcMagnitudeSquared at hfB
    simp only [List.mem_map] at hfB
    obtain ⟨b, hb, rfl⟩ := hfB
    exact magnitude_nonneg _ _ _ (hG b hb)

/-- Claim C17 at the magnitudes `[0, 40, 1, 2]`: only bucket 1 exceeds the mean times 2.5,
and both selections return 770. -/
theorem detected_bucket_unique_witness :
    ([0, 40, 1, 2] : List ℚ).length = 4 ∧ (∀ x ∈ ([0, 40, 1, 2] : List ℚ), 0 ≤ x) ∧
    exceedsMean [0, 40, 1, 2] 1 ∧ ¬ exceedsMean [0, 40, 1, 2] 3 ∧
    select_low [0, 40, 1, 2]
      = selectStrongest LOW frequencies_low
          (floats_Sum [0, 40, 1, 2] / (([0, 40, 1, 2] : List ℚ).length : ℚ)) [0, 40, 1, 2] :=
  have hnn : ∀ x ∈ ([0, 40, 1, 2] : List ℚ), 0 ≤ x := by
    intro x hx
    simp only [List.mem_cons, List.mem_singleton, List.not_mem_nil, or_false] at hx
    rcases hx with rfl | rfl | rfl | rfl <;> norm_num
  have hex : exceedsMean [0, 40, 1, 2] 1 := by norm_num [exceedsMean]
  ⟨rfl, hnn, hex,
    fun h => (detected_bucket_unique [0, 40, 1, 2] rfl hnn).1 1 3 (by omega) (by omega)
      (by omega) ⟨hex, h⟩,
    (detected_bucket_unique [0, 40, 1, 2] rfl hnn).2.2.2.1⟩

theorem dtmf_symbol_facts :
    ∀ c ∈ dtmfDigits,
      utf8Bytes c = [c.toNat] ∧ utf8Bytes (hexRune c) = [(hexRune c).toNat] ∧
      reverseHexTable (hexRune c).toNat ≤ 15 ∧ hexRune c ∈ hexChars := by
  decide

theorem hexDecode_even : ∀ (n : Nat) (bs : List Nat), bs.length = 2 * n →
    (∀ b ∈ bs, reverseHexTable b ≤ 15) → (hexDecode bs).2 = none := by
  intro n
  induction n with
  | zero =>
    intro bs hbs _
    have : bs = [] := List.length_eq_zero.1 (by omega)
    subst this
    rfl
  | succ n ih =>
    intro bs hbs hall
    match bs, hbs, hall with
    | p :: q :: rest, h, hall =>
      have hrest : rest.length = 2 * n := by
        simp only [List.length_cons] at h
        omega
      have hp : ¬ reverseHexTable p > 15 := by
        have := hall p (by simp)
        omega
      have hq : ¬ reverseHexTable q > 15 := by
        have := hall q (by simp)
        omega
      unfold hexDecode
      rw [if_neg hp, if_neg hq]
      exact ih rest hrest (fun b hb => hall b (by simp [hb]))

theorem goBytes_symbols (cs : List Char) (hsym : ∀ c ∈ cs, c ∈ dtmfDigits) :
    cs.flatMap utf8Bytes = cs.map (fun c => c.toNat) ∧
    (cs.map hexRune).flatMap utf8Bytes = cs.map (fun c => (hexRune c).toNat) := by
  induction cs with
  | nil => exact ⟨rfl, rfl⟩
  | cons c cs ih =>
    have hc := dtmf_symbol_facts c (hsym c (List.mem_cons_self _ _))
    have hrest := ih (fun x hx => hsym x (List.mem_cons_of_mem _ hx))
    constructor
    · rw [List.flatMap_cons, hc.1, hrest.1]; rfl
    · rw [List.map_cons, List.flatMap_cons, hc.2.1, hrest.2]; rfl

/-- Claim C16.  For a message `m` made of the 16 DTMF grid symbols only, `dtmf_to_hex m`
has the length of `m`, has `e` where `m` has `*`, `f` where `m` has `#` and the character
of `m` everywhere else, and consists of hexadecimal digits only; so the hex decoding of
`dtmf_to_hex m` fails exactly when the length of `m` is odd. -/
theorem dtmf_to_hex_valid (m : String) (hsym : ∀ c ∈ m.data, c ∈ dtmfDigits) :
    len (dtmf_to_hex m) = len m ∧ (dtmf_to_hex m).length = m.length ∧
    (∀ (i : Nat) (c : Char), m.data[i]? = some c →
      (dtmf_to_hex m).data[i]? = some (if c = '*' then 'e' else if c = '#' then 'f' else c)) ∧
    (∀ c ∈ (dtmf_to_hex m).data, c ∈ hexChars) ∧
    ((hexDecodeString (dtmf_to_hex m)).2 ≠ none ↔ len m % 2 = 1) := by
  obtain ⟨h1, h2⟩ := goBytes_symbols m.data hsym
  have hbytes : goBytes (dtmf_to_hex m) = m.data.map (fun c => (hexRune c).toNat) := by
    unfold goBytes
    rw [dtmf_to_hex_data, h2]
  have hlen : len m = m.data.length := by
    unfold len goBytes
    rw [h1, List.length_map]
  have hlen' : len (dtmf_to_hex m) = m.data.length := by
    unfold len
    rw [hbytes, List.length_map]
  have hall : ∀ b ∈ goBytes (dtmf_to_hex m), reverseHexTable b ≤ 15 := by
    intro b hb
    rw [hbytes, List.mem_map] at hb
    obtain ⟨c, hc, rfl⟩ := hb
    exact (dtmf_symbol_facts c (hsym c hc)).2.2.1
  refine ⟨by rw [hlen, hlen'], ?_, ?_, ?_, ?_⟩
  · show (dtmf_to_hex m).data.length = m.data.length
    rw [dtmf_to_hex_data, List.length_map]
  · intro i c hi
    rw [dtmf_to_hex_data, List.getElem?_map, hi]
    rfl
  · intro c hc
    rw [dtmf_to_hex_data, List.mem_map] at hc
    obtain ⟨a, ha, rfl⟩ := hc
    exact (dtmf_symbol_facts a (hsym a ha)).2.2.2
  · unfold hexDecodeString
    rw [hlen]
    have hl : (goBytes (dtmf_to_hex m)).length = m.data.length := hlen'
    constructor
    · intro herr
      by_contra hodd
      have heven : (goBytes (dtmf_to_hex m)).length = 2 * (m.data.length / 2) := by omega
      exact herr (hexDecode_even _ _ heven hall)
    · intro hodd
      have : (goBytes (dtmf_to_hex m)).length = 2 * (m.data.length / 2) + 1 := by omega
      exact hexDecode_odd _ _ this

/-- Claim C16 at the message `1*#A`, whose hex string is `1efA`. -/
theorem dtmf_to_hex_valid_witness :
    (∀ c ∈ "1*#A".data, c ∈ dtmfDigits) ∧ dtmf_to_hex "1*#A" = "1efA" ∧
    ((hexDecodeString (dtmf_to_hex "1*#A")).2 ≠ none ↔ len "1*#A" % 2 = 1) :=
  ⟨by decide, by decide, (dtmf_to_hex_valid "1*#A" (by decide)).2.2.2.2⟩

theorem hexToDtmf_digit (n : Nat) : hexToDtmf (hexDigitsLower.getD n '0') = dtmfDigit n := by
  by_cases hn : n < 16
  · have h : ∀ k, k < 16 → hexToDtmf (hexDigitsLower.getD k '0') = dtmfDigit k := by decide
    exact h n hn
  · unfold dtmfDigit
    rw [List.getD_eq_getElem?_getD, List.getD_eq_getElem?_getD,
      List.getElem?_eq_none (by simp [hexDigitsLower]; omega),
      List.getElem?_eq_none (by simp [dtmfDigits]; omega)]
    decide

theorem join_encodeByte_data (bs : List Nat) :
    (String.join (bs.flatMap encodeByte)).data = (hexString bs).map hexToDtmf := by
  rw [String.data_join]
  induction bs with
  | nil => rfl
  | cons b bs ih =>
    simp only [List.flatMap_cons, List.map_append, List.flatten_append, hexString] at ih ⊢
    rw [ih]
    simp only [encodeByte, List.map_cons, List.map_nil, String.data_singleton,
      List.flatten_cons, List.flatten_nil, List.singleton_append, List.cons_append,
      List.nil_append, List.append_nil, hexToDtmf_digit]

theorem dtmfMessage_eq (p : List Nat) : dtmfMessage p = String.join (dtmfEncode p) := by
  apply String.ext
  unfold dtmfEncode
  rw [join_encodeByte_data]
  rfl

/-- Claim C19.  For every byte payload `p`, the empty one included, let `m` be the DTMF
message of the hex-digit string of `p` followed by its CRC-8 byte (`*` for `e`, `#` for
`f`, `A`-`D` for `a`-`d`).  The hex decoding of `dtmf_to_hex m` succeeds, with the bytes of
`p` followed by the CRC-8 byte, and `decode_and_verify_crc8` emits exactly `p` for `m`. -/
theorem decoder_roundtrip (p : List Nat) (hp : ∀ b ∈ p, b < 256) :
    hexDecodeString (dtmf_to_hex (dtmfMessage p))
      = (p ++ [crc8_Checksum CRC8 p (crc8_MakeTable CRC8)], none) ∧
    decode_and_verify_crc8_body (crc8_MakeTable CRC8) (dtmfMessage p) = DecodeOutcome.emit p ∧
    decode_and_verify_crc8 [dtmfMessage p] = ([p], false) := by
  have hall : ∀ b ∈ p ++ [crc8_Checksum CRC8 p (crc8_MakeTable CRC8)], b < 256 := by
    intro b hb
    rcases List.mem_append.1 hb with h | h
    · exact hp b h
    · rw [List.mem_singleton.1 h]
      exact crc8_Checksum_bound p
  have hbody := decode_encoded p hp
  rw [dtmfMessage_eq]
  refine ⟨?_, hbody, ?_⟩
  · unfold hexDecodeString dtmfEncode
    rw [goBytes_encode, hexDecode_encode _ hall]
  · unfold decode_and_verify_crc8
    simp only [decode_loop, hbody]

/-- Claim C19 at the payload `[0xde]`, whose message is `D*14`, and at the empty payload,
whose message is `00`. -/
theorem decoder_roundtrip_witness :
    (∀ b ∈ [0xde], b < 256) ∧ dtmfMessage [0xde] = "D*14" ∧ dtmfMessage [] = "00" ∧
    decode_and_verify_crc8 [dtmfMessage [0xde]] = ([[0xde]], false) :=
  ⟨by decide, by decide, by decide, (decoder_roundtrip [0xde] (by decide)).2.2⟩

theorem join_filter_nonblank (ss : List String) :
    String.join (ss.filter (fun s => decide (s ≠ ""))) = String.join ss := by
  induction ss with
  | nil => rfl
  | cons s ss ih =>
    by_cases hs : s = ""
    · subst hs
      rw [List.filter_cons_of_neg (by simp), ih, join_cons, String.empty_append]
    · rw [List.filter_cons_of_pos (by simpa using hs), join_cons, join_cons, ih]

/-- An emission of `parse_message` sends the non-empty `msg` it holds. -/
theorem parse_emission (ms : List String) (i : Nat) (msg : String)
    (h : (parse_message ms)[i]? = some (some msg)) :
    msg ≠ "" ∧
    msg = String.join (sinceLastEmission (ms.take i) (parse_message (ms.take i))) := by
  unfold parse_message at h
  rw [runStage_getElem?] at h
  cases hx : ms[i]? with
  | none => simp [hx] at h
  | some m =>
    simp only [hx, Option.map_some', Option.some.injEq] at h
    obtain ⟨_, _, hne, hmsg⟩ := (parse_emits_iff _ _ _).1 h
    rw [parse_state_since] at hne hmsg
    exact ⟨by rw [hmsg]; exact hne, hmsg⟩

theorem decode_crash_iff (table : List Nat) (msg : String) :
    decode_and_verify_crc8_body table msg = DecodeOutcome.crash ↔ msg = "" := by
  constructor
  · intro h
    by_contra hne
    rcases hdec : hexDecodeString (dtmf_to_hex msg) with ⟨d, _ | e⟩
    · have hd := hexDecodeString_ne_nil msg d hne hdec
      have hlen : d.length ≠ 0 := fun hl => hd (List.length_eq_zero.1 hl)
      unfold decode_and_verify_crc8_body at h
      rw [hdec] at h
      simp only [hlen, if_false] at h
      split at h <;> exact absurd h (by simp)
    · unfold decode_and_verify_crc8_body at h
      rw [hdec] at h
      exact absurd h (by simp)
  · rintro rfl
    have hdec : hexDecodeString (dtmf_to_hex "") = ([], none) := by decide
    unfold decode_and_verify_crc8_body
    rw [hdec]
    rfl

theorem decode_loop_no_crash (table : List Nat) (msgs : List String)
    (h : ∀ m ∈ msgs, m ≠ "") : (decode_loop table msgs).2 = false := by
  induction msgs with
  | nil => rfl
  | cons m msgs ih =>
    have hm : decode_and_verify_crc8_body table m ≠ DecodeOutcome.crash :=
      fun hc => h m (List.mem_cons_self _ _) ((decode_crash_iff table m).1 hc)
    have hrest := ih (fun x hx => h x (List.mem_cons_of_mem _ hx))
    rw [decode_loop]
    cases hb : decode_and_verify_crc8_body table m with
    | emit p => simpa using hrest
    | skip => simpa using hrest
    | crash => exact absurd hb hm

/-- Claim C20.  Every message that `parse_message` emits is non-empty and is the
concatenation of the non-blank symbols received since the last emission.  For a non-empty
message whose hex decoding succeeds the decoded bytes number at least one, so the slice
expressions `decoded[:len-1]` and `decoded[len-1]` of the decoder are in bounds: the
iteration panics for the empty message only, and the decoder fed by `parse_message` never
panics. -/
theorem framer_output_in_bounds (ms : List String) (table : List Nat) :
    (∀ (i : Nat) (msg : String), (parse_message ms)[i]? = some (some msg) →
      msg ≠ "" ∧
      msg = String.join ((sinceLastEmission (ms.take i) (parse_message (ms.take i))).filter
        (fun s => decide (s ≠ ""))) ∧
      decode_and_verify_crc8_body table msg ≠ DecodeOutcome.crash) ∧
    (∀ (msg : String) (d : List Nat), msg ≠ "" →
      hexDecodeString (dtmf_to_hex msg) = (d, none) → 1 ≤ d.length) ∧
    (∀ msg : String, decode_and_verify_crc8_body table msg = DecodeOutcome.crash ↔ msg = "") ∧
    (decode_loop table (sent (parse_message ms))).2 = false := by
  refine ⟨?_, ?_, decode_crash_iff table, ?_⟩
  · intro i msg h
    obtain ⟨hne, hmsg⟩ := parse_emission ms i msg h
    refine ⟨hne, ?_, fun hc => hne ((decode_crash_iff table msg).1 hc)⟩
    rw [join_filter_nonblank]
    exact hmsg
  · intro msg d hne hdec
    have hd := hexDecodeString_ne_nil msg d hne hdec
    exact List.length_pos.2 hd
  · apply decode_loop_no_crash
    intro m hm
    unfold sent at hm
    rw [List.reduceOption_mem_iff] at hm
    obtain ⟨i, hi⟩ := List.mem_iff_getElem?.1 hm
    exact (parse_emission ms i m hi).1

/-- Claim C20 at the stream `1`, `2` and five blanks, whose message `12` is emitted on the
last blank. -/
theorem framer_output_in_bounds_witness :
    (parse_message ["1", "2", "", "", "", "", ""])[6]? = some (some "12") ∧
    "12" ≠ "" ∧
    decode_and_verify_crc8_body (crc8_MakeTable CRC8) "12" ≠ DecodeOutcome.crash :=
  ⟨by decide,
    ((framer_output_in_bounds ["1", "2", "", "", "", "", ""] (crc8_MakeTable CRC8)).1 6 "12"
      (by decide)).1,
    ((framer_output_in_bounds ["1", "2", "", "", "", "", ""] (crc8_MakeTable CRC8)).1 6 "12"
      (by decide)).2.2⟩

set_option maxRecDepth 100000 in
theorem crc8_unshift_shift :
    ∀ c, c < 256 → crc8_unshift 7 (crc8_shift 7 c) = c ∧ crc8_shift 7 c < 256 := by
  decide

theorem crc8_shift_iterate_inj (n : Nat) :
    ∀ a b, a < 256 → b < 256 → (crc8_shift 7)^[n] a = (crc8_shift 7)^[n] b → a = b := by
  induction n with
  | zero => intro a b _ _ h; exact h
  | succ n ih =>
    intro a b ha hb h
    rw [Function.iterate_succ_apply, Function.iterate_succ_apply] at h
    have hs := ih _ _ (crc8_unshift_shift a ha).2 (crc8_unshift_shift b hb).2 h
    rw [← (crc8_unshift_shift a ha).1, ← (crc8_unshift_shift b hb).1, hs]

theorem crc8_table_getD (a : Nat) (ha : a < 256) :
    (crc8_MakeTable CRC8).getD a 0 = (crc8_shift 7)^[8] a := by
  unfold crc8_MakeTable
  rw [List.getD_eq_getElem?_getD, List.getElem?_map, List.getElem?_range ha]
  rfl

theorem crc8_table_inj (a b : Nat) (ha : a < 256) (hb : b < 256)
    (h : (crc8_MakeTable CRC8).getD a 0 = (crc8_MakeTable CRC8).getD b 0) : a = b := by
  rw [crc8_table_getD a ha, crc8_table_getD b hb] at h
  exact crc8_shift_iterate_inj 8 a b ha hb h

theorem xor_byte_lt (a b : Nat) (ha : a < 256) (hb : b < 256) : a ^^^ b < 256 :=
  Nat.xor_lt_two_pow (n := 8) ha hb

/-- Two different CRC registers stay different while the same bytes are added. -/
theorem crc8_Update_ne (data : List Nat) (hdata : ∀ d ∈ data, d < 256) (c c' : Nat)
    (hc : c < 256) (hc' : c' < 256) (hne : c ≠ c') :
    crc8_Update c data (crc8_MakeTable CRC8) ≠ crc8_Update c' data (crc8_MakeTable CRC8) := by
  induction data generalizing c c' with
  | nil => simpa [crc8_Update] using hne
  | cons d data ih =>
    have hd : d < 256 := hdata d (List.mem_cons_self _ _)
    unfold crc8_Update at ih ⊢
    rw [List.foldl_cons, List.foldl_cons]
    apply ih (fun x hx => hdata x (List.mem_cons_of_mem _ hx)) _ _ (crc8_getD_bound _)
      (crc8_getD_bound _)
    intro h
    have h1 := crc8_table_inj _ _ (xor_byte_lt c d hc hd) (xor_byte_lt c' d hc' hd) h
    exact hne (Nat.xor_left_injective h1)

/-- Changing one byte of the data changes its CRC-8. -/
theorem crc8_Checksum_set_ne (p : List Nat) (hp : ∀ b ∈ p, b < 256) (i x : Nat)
    (hi : i < p.length) (hx : x < 256) (hne : x ≠ p.getD i 0) :
    crc8_Checksum CRC8 (p.set i x) (crc8_MakeTable CRC8)
      ≠ crc8_Checksum CRC8 p (crc8_MakeTable CRC8) := by
  have hsplit : p = p.take i ++ p.getD i 0 :: p.drop (i + 1) := by
    rw [List.getD_eq_getElem?_getD, List.getElem?_eq_getElem hi, Option.getD_some]
    simp
  have hset : p.set i x = p.take i ++ x :: p.drop (i + 1) := by
    rw [List.set_eq_take_append_cons_drop, if_pos hi]
  have hpost : ∀ d ∈ p.drop (i + 1), d < 256 := fun d hd => hp d (List.mem_of_mem_drop hd)
  have hpre : crc8_Update CRC8.Init (p.take i) (crc8_MakeTable CRC8) < 256 :=
    crc8_Update_bound _ _ (by decide)
  have hy : p.getD i 0 < 256 := by
    rw [List.getD_eq_getElem?_getD, List.getElem?_eq_getElem hi, Option.getD_some]
    exact hp _ (List.getElem_mem _)
  unfold crc8_Checksum
  have hxo : CRC8.XorOut = 0 := rfl
  rw [hxo, Nat.xor_zero, Nat.xor_zero, hset]
  conv_rhs => rw [hsplit]
  unfold crc8_Update at hpre ⊢
  rw [List.foldl_append, List.foldl_append, List.foldl_cons, List.foldl_cons]
  have hstep := crc8_Update_ne (p.drop (i + 1)) hpost
    ((crc8_MakeTable CRC8).getD
      (List.foldl (fun c d => (crc8_MakeTable CRC8).getD (c ^^^ d) 0) CRC8.Init (p.take i) ^^^ x) 0)
    ((crc8_MakeTable CRC8).getD
      (List.foldl (fun c d => (crc8_MakeTable CRC8).getD (c ^^^ d) 0) CRC8.Init (p.take i)
        ^^^ p.getD i 0) 0)
    (crc8_getD_bound _) (crc8_getD_bound _)
    (by
      intro h
      have h1 := crc8_table_inj _ _ (xor_byte_lt _ x hpre hx) (xor_byte_lt _ _ hpre hy) h
      exact hne (Nat.xor_right_injective h1))
  unfold crc8_Update at hstep
  exact hstep

theorem decode_bytes (bs : List Nat) (hbs : ∀ b ∈ bs, b < 256) :
    hexDecodeString (dtmf_to_hex (encodeBytes bs)) = (bs, none) := by
  unfold hexDecodeString encodeBytes
  rw [goBytes_encode, hexDecode_encode _ hbs]

theorem flip_byte (x k : Nat) (hx : x < 256) (hk : k < 8) :
    x ^^^ 2 ^ k < 256 ∧ x ^^^ 2 ^ k ≠ x := by
  constructor
  · apply xor_byte_lt x _ hx
    calc 2 ^ k < 2 ^ 8 := Nat.pow_lt_pow_right (by omega) hk
      _ = 256 := by norm_num
  · intro h
    have h0 : x ^^^ 2 ^ k = x ^^^ 0 := by rw [h, Nat.xor_zero]
    have := Nat.xor_right_injective h0
    exact absurd this (by positivity)

/-- Claim C18.  For every byte payload `p` the byte message `p ++ [CRC-8(p)]` is accepted
by the decoder, which emits `p`; flipping any single bit of any one byte of that message,
payload byte or checksum byte, gives a byte message of the same length that the decoder
discards without emitting. -/
theorem single_bit_error_discarded (p : List Nat) (hp : ∀ b ∈ p, b < 256) (i k : Nat)
    (hi : i ≤ p.length) (hk : k < 8) :
    decode_and_verify_crc8_body (crc8_MakeTable CRC8)
        (encodeBytes (p ++ [crc8_Checksum CRC8 p (crc8_MakeTable CRC8)]))
      = DecodeOutcome.emit p ∧
    (flipBit (p ++ [crc8_Checksum CRC8 p (crc8_MakeTable CRC8)]) i k).length
      = (p ++ [crc8_Checksum CRC8 p (crc8_MakeTable CRC8)]).length ∧
    flipBit (p ++ [crc8_Checksum CRC8 p (crc8_MakeTable CRC8)]) i k
      ≠ p ++ [crc8_Checksum CRC8 p (crc8_MakeTable CRC8)] ∧
    decode_and_verify_crc8_body (crc8_MakeTable CRC8)
        (encodeBytes (flipBit (p ++ [crc8_Checksum CRC8 p (crc8_MakeTable CRC8)]) i k))
      = DecodeOutcome.skip := by
  have hcrc := crc8_Checksum_bound p
  generalize hc : crc8_Checksum CRC8 p (crc8_MakeTable CRC8) = c at hcrc ⊢
  have hacc : decode_and_verify_crc8_body (crc8_MakeTable CRC8) (encodeBytes (p ++ [c]))
      = DecodeOutcome.emit p := by
    have := decode_encoded p hp
    unfold dtmfEncode at this
    rw [hc] at this
    exact this
  refine ⟨hacc, by simp [flipBit], ?_, ?_⟩
  · by_cases hlt : i < p.length
    · have hx := flip_byte (p.getD i 0) k (by
        rw [List.getD_eq_getElem?_getD, List.getElem?_eq_getElem hlt, Option.getD_some]
        exact hp _ (List.getElem_mem _)) hk
      intro h
      have h1 := congrArg (fun l => l.getD i 0) h
      simp only [flipBit, List.getD_eq_getElem?_getD,
        List.getElem?_set_self (show i < (p ++ [c]).length by simp; omega),
        List.getElem?_append_left hlt, Option.getD_some] at h1
      rw [List.getD_eq_getElem?_getD] at hx
      exact hx.2 h1
    · have hieq : i = p.length := by omega
      subst hieq
      have hx := flip_byte c k hcrc hk
      intro h
      have h1 := congrArg (fun l => l.getD p.length 0) h
      simp only [flipBit, List.getD_eq_getElem?_getD,
        List.getElem?_set_self (show p.length < (p ++ [c]).length by simp),
        List.getElem?_append_right (Nat.le_refl _), Nat.sub_self, List.getElem?_cons_zero,
        Option.getD_some] at h1
      exact hx.2 h1
  · by_cases hlt : i < p.length
    · have hpi : p.getD i 0 < 256 := by
        rw [List.getD_eq_getElem?_getD, List.getElem?_eq_getElem hlt, Option.getD_some]
        exact hp _ (List.getElem_mem _)
      have hx := flip_byte (p.getD i 0) k hpi hk
      have hflip : flipBit (p ++ [c]) i k = p.set i (p.getD i 0 ^^^ 2 ^ k) ++ [c] := by
        unfold flipBit
        rw [List.set_append_left _ _ hlt]
        congr 2
        rw [List.getD_eq_getElem?_getD, List.getD_eq_getElem?_getD,
          List.getElem?_append_left hlt]
      have hbytes : ∀ b ∈ p.set i (p.getD i 0 ^^^ 2 ^ k) ++ [c], b < 256 := by
        intro b hb
        rcases List.mem_append.1 hb with h | h
        · rcases List.mem_or_eq_of_mem_set h with h' | h'
          · exact hp b h'
          · rw [h']; exact hx.1
        · rw [List.mem_singleton.1 h]; exact hcrc
      have hne := crc8_Checksum_set_ne p hp i _ hlt hx.1 hx.2
      rw [hc] at hne
      generalize p.getD i 0 ^^^ 2 ^ k = y at hflip hbytes hne
      rw [hflip]
      unfold decode_and_verify_crc8_body
      rw [decode_bytes _ hbytes]
      have hlen : (p.set i y ++ [c]).length - 1 = (p.set i y).length := by simp
      dsimp only
      rw [hlen, List.take_left' rfl, List.getD_eq_getElem?_getD,
        List.getElem?_append_right (Nat.le_refl _)]
      simp only [List.length_append, List.length_set, List.length_singleton,
        Nat.add_one_ne_zero, if_false, Nat.sub_self, List.getElem?_cons_zero,
        Option.getD_some, if_neg hne]
    · have hieq : i = p.length := by omega
      subst hieq
      have hx := flip_byte c k hcrc hk
      have hflip : flipBit (p ++ [c]) p.length k = p ++ [c ^^^ 2 ^ k] := by
        unfold flipBit
        rw [List.set_append_right _ _ (Nat.le_refl _)]
        simp [List.getD_eq_getElem?_getD]
      have hbytes : ∀ b ∈ p ++ [c ^^^ 2 ^ k], b < 256 := by
        intro b hb
        rcases List.mem_append.1 hb with h | h
        · exact hp b h
        · rw [List.mem_singleton.1 h]; exact hx.1
      rw [hflip]
      unfold decode_and_verify_crc8_body
      rw [decode_bytes _ hbytes]
      have hlen : (p ++ [c ^^^ 2 ^ k]).length - 1 = p.length := by simp
      dsimp only
      rw [hlen, List.take_left' rfl, List.getD_eq_getElem?_getD,
        List.getElem?_append_right (Nat.le_refl _)]
      simp only [List.length_append, List.length_singleton, Nat.add_one_ne_zero, if_false,
        Nat.sub_self, List.getElem?_cons_zero, Option.getD_some, hc]
      rw [if_neg (fun h => hx.2 h.symm)]

/-- Claim C18 at the payload `[0x31]`, whose message is `[0x31, 0x97]`: with bit 3 of the
payload byte flipped the message is `[0x39, 0x97]` and is discarded. -/
theorem single_bit_error_discarded_witness :
    (∀ b ∈ [0x31], b < 256) ∧ 0 ≤ [0x31].length ∧ 3 < 8 ∧
    flipBit ([0x31] ++ [crc8_Checksum CRC8 [0x31] (crc8_MakeTable CRC8)]) 0 3 = [0x39, 0x97] ∧
    decode_and_verify_crc8_body (crc8_MakeTable CRC8)
        (encodeBytes (flipBit ([0x31] ++ [crc8_Checksum CRC8 [0x31] (crc8_MakeTable CRC8)]) 0 3))
      = DecodeOutcome.skip :=
  ⟨by decide, by decide, by decide, by decide,
    (single_bit_error_discarded [0x31] (by decide) 0 3 (by decide) (by decide)).2.2.2⟩

/-- Two buckets that agree on `coeff`, `Q1` and `Q2`. -/
theorem process_same_filter (G : Goertzel) (b1 b2 : FrequencyBucket) (sample : ℚ)
    (hG : G.freqBucket = [b1, b2]) (hc : b1.coeff = b2.coeff) (h1 : b1.Q1 = b2.Q1)
    (h2 : b1.Q2 = b2.Q2) :
    ∃ c1 c2, (ProcessSample G sample).freqBucket = [c1, c2] ∧ c1.coeff = c2.coeff ∧
      c1.Q1 = c2.Q1 ∧ c1.Q2 = c2.Q2 := by
  refine ⟨⟨b1.TargetFrequency, b1.coeff, b1.coeff * b1.Q1 - b1.Q2 + sample, b1.Q1, b1.sine,
      b1.cosine, b1.RealPart, b1.ImagPart, b1.MagnitureSquared⟩,
    ⟨b2.TargetFrequency, b2.coeff, b2.coeff * b2.Q1 - b2.Q2 + sample, b2.Q1, b2.sine,
      b2.cosine, b2.RealPart, b2.ImagPart, b2.MagnitureSquared⟩, ?_, hc, ?_, h1⟩
  · simp only [ProcessSample, hG, List.map_cons, List.map_nil]
  · simp only [hc, h1, h2]

theorem process_all_same_filter (samples : List ℚ) (G : Goertzel) (b1 b2 : FrequencyBucket)
    (hG : G.freqBucket = [b1, b2]) (hc : b1.coeff = b2.coeff) (h1 : b1.Q1 = b2.Q1)
    (h2 : b1.Q2 = b2.Q2) :
    ∃ c1 c2, (samples.foldl (fun G sample => ProcessSample G sample) G).freqBucket = [c1, c2] ∧
      c1.coeff = c2.coeff ∧ c1.Q1 = c2.Q1 ∧ c1.Q2 = c2.Q2 := by
  induction samples generalizing G b1 b2 with
  | nil => exact ⟨b1, b2, hG, hc, h1, h2⟩
  | cons x xs ih =>
    obtain ⟨c1, c2, hG', hc', h1', h2'⟩ := process_same_filter G b1 b2 x hG hc h1 h2
    rw [List.foldl_cons]
    exact ih _ c1 c2 hG' hc' h1' h2'

/-- Two target frequencies that round to the same bin index `k` get the same relative
magnitude, whatever block of samples is fed through the bank. -/
theorem same_bin_same_magnitude (M : GoMath) (sampleRate bufferSize : Int) (f1 f2 : ℚ)
    (hk : binIndex M sampleRate bufferSize f1 = binIndex M sampleRate bufferSize f2)
    (samples : List ℚ) :
    ∃ m : ℚ,
      (calcMagnitudeSquared (samples.foldl (fun G sample => ProcessSample G sample)
          (ResetGoertzel (InitGoertzel M sampleRate bufferSize [f1, f2])))).freqBucket.map
        (fun b => b.MagnitureSquared) = [m, m] := by
  have hinit : ∃ b1 b2 : FrequencyBucket,
      (ResetGoertzel (InitGoertzel M sampleRate bufferSize [f1, f2])).freqBucket = [b1, b2] ∧
      b1.coeff = b2.coeff ∧ b1.Q1 = b2.Q1 ∧ b1.Q2 = b2.Q2 := by
    refine ⟨_, _, rfl, ?_, rfl, rfl⟩
    simp only [hk]
  obtain ⟨b1, b2, hb, hbc, hb1, hb2⟩ := hinit
  obtain ⟨c1, c2, hG, hc, h1, h2⟩ := process_all_same_filter samples
    (ResetGoertzel (InitGoertzel M sampleRate bufferSize [f1, f2])) b1 b2 hb hbc hb1 hb2
  refine ⟨c2.Q1 * c2.Q1 + c2.Q2 * c2.Q2 - c2.Q1 * c2.Q2 * c2.coeff, ?_⟩
  simp only [calcMagnitudeSquared, hG, List.map_cons, List.map_nil, hc, h1, h2]

theorem process_block_buckets (samples : List ℚ) (G : Goertzel) :
    (samples.foldl (fun G sample => ProcessSample G sample) G).freqBucket =
      G.freqBucket.map (fun fB =>
        (⟨fB.TargetFrequency, fB.coeff, (filterState fB.coeff (fB.Q1, fB.Q2) samples).1,
          (filterState fB.coeff (fB.Q1, fB.Q2) samples).2, fB.sine, fB.cosine, fB.RealPart,
          fB.ImagPart, fB.MagnitureSquared⟩ : FrequencyBucket)) := by
  induction samples generalizing G with
  | nil => simp [filterState]
  | cons x xs ih =>
    rw [List.foldl_cons, ih]
    simp only [ProcessSample, List.map_map, filterState, List.foldl_cons]
    rfl

/-- The magnitudes of a block depend on the coefficients of the buckets only. -/
theorem blockMagnitudes_eq (G : Goertzel) (samples : List ℚ) :
    blockMagnitudes G samples
      = G.freqBucket.map (fun fB => filterMagnitude fB.coeff samples) := by
  unfold blockMagnitudes
  simp only [calcMagnitudeSquared, process_block_buckets, ResetGoertzel, List.map_map]
  rfl

/-- The coefficients that `InitGoertzel` computes: `2 * cos(2 * pi * k / N)` with the bin
index `k` of every frequency and `N` the buffer size. -/
theorem InitGoertzel_magnitudes (M : GoMath) (sampleRate bufferSize : Int) (fs : List ℚ)
    (samples : List ℚ) :
    blockMagnitudes (InitGoertzel M sampleRate bufferSize fs) samples
      = fs.map (fun f =>
          filterMagnitude
            (2 * M.Cos (2 * M.Pi * (binIndex M sampleRate bufferSize f : ℚ) / (bufferSize : ℚ)))
            samples) := by
  rw [blockMagnitudes_eq]
  simp only [InitGoertzel, ResetGoertzel, List.map_map]
  rfl

theorem goInt_eq (x : ℚ) (k : Int) (h0 : 0 ≤ x) (h1 : (k : ℚ) ≤ x) (h2 : x < (k : ℚ) + 1) :
    goInt x = k := by
  unfold goInt
  rw [if_pos h0]
  exact Int.floor_eq_iff.2 ⟨h1, h2⟩

theorem binIndex_eq (M : GoMath) (sampleRate bufferSize : Int) (freq : ℚ) (k : Int)
    (hsr : sampleRate ≠ 0)
    (h0 : 0 ≤ 1 / 2 + ((bufferSize : ℚ) * freq) / sampleRate)
    (h1 : (k : ℚ) ≤ 1 / 2 + ((bufferSize : ℚ) * freq) / sampleRate)
    (h2 : 1 / 2 + ((bufferSize : ℚ) * freq) / sampleRate < (k : ℚ) + 1) :
    binIndex M sampleRate bufferSize freq = k := by
  unfold binIndex
  rw [if_neg hsr]
  exact goInt_eq _ k h0 h1 h2

theorem bins_low_44100 (M : GoMath) :
    frequencies_low.map (binIndex M 44100 1024) = [16, 18, 20, 22] ∧
    frequencies_low.map (binIndex M 44100 1102) = [17, 19, 21, 24] := by
  simp only [frequencies_low, List.map_cons, List.map_nil]
  rw [binIndex_eq M 44100 1024 697 16 (by decide) (by norm_num) (by norm_num) (by norm_num),
    binIndex_eq M 44100 1024 770 18 (by decide) (by norm_num) (by norm_num) (by norm_num),
    binIndex_eq M 44100 1024 852 20 (by decide) (by norm_num) (by norm_num) (by norm_num),
    binIndex_eq M 44100 1024 941 22 (by decide) (by norm_num) (by norm_num) (by norm_num),
    binIndex_eq M 44100 1102 697 17 (by decide) (by norm_num) (by norm_num) (by norm_num),
    binIndex_eq M 44100 1102 770 19 (by decide) (by norm_num) (by norm_num) (by norm_num),
    binIndex_eq M 44100 1102 852 21 (by decide) (by norm_num) (by norm_num) (by norm_num),
    binIndex_eq M 44100 1102 941 24 (by decide) (by norm_num) (by norm_num) (by norm_num)]
  exact ⟨rfl, rfl⟩

theorem bins_high_44100 (M : GoMath) :
    frequencies_high.map (binIndex M 44100 1024) = [28, 31, 34, 38] ∧
    frequencies_high.map (binIndex M 44100 1102) = [30, 33, 37, 41] := by
  simp only [frequencies_high, List.map_cons, List.map_nil]
  rw [binIndex_eq M 44100 1024 1209 28 (by decide) (by norm_num) (by norm_num) (by norm_num),
    binIndex_eq M 44100 1024 1336 31 (by decide) (by norm_num) (by norm_num) (by norm_num),
    binIndex_eq M 44100 1024 1477 34 (by decide) (by norm_num) (by norm_num) (by norm_num),
    binIndex_eq M 44100 1024 1633 38 (by decide) (by norm_num) (by norm_num) (by norm_num),
    binIndex_eq M 44100 1102 1209 30 (by decide) (by norm_num) (by norm_num) (by norm_num),
    binIndex_eq M 44100 1102 1336 33 (by decide) (by norm_num) (by norm_num) (by norm_num),
    binIndex_eq M 44100 1102 1477 37 (by decide) (by norm_num) (by norm_num) (by norm_num),
    binIndex_eq M 44100 1102 1633 41 (by decide) (by norm_num) (by norm_num) (by norm_num)]
  exact ⟨rfl, rfl⟩

theorem storeMagnitudes_four (G : Goertzel) (mags : List ℚ) (hG : G.freqBucket.length = 4)
    (hm : mags.length = 4) :
    storeMagnitudes G mags = G.freqBucket.map (fun fB => fB.MagnitureSquared) := by
  obtain ⟨b0, b1, b2, b3, hb⟩ := list_length_four G.freqBucket hG
  obtain ⟨m0, m1, m2, m3, rfl⟩ := list_length_four mags hm
  simp only [storeMagnitudes, hb, List.enum, List.enumFrom, List.foldl, List.set, List.map]

theorem block_buckets_length (G : Goertzel) (samples : List ℚ) :
    (calcMagnitudeSquared
      (samples.foldl (fun G sample => ProcessSample G sample)
        (ResetGoertzel G))).freqBucket.length = G.freqBucket.length := by
  simp only [calcMagnitudeSquared, process_block_buckets, ResetGoertzel, List.length_map]

/-- What an iteration of `dtmf_reader` that read a block stores in `lows` and `highs`: the
magnitudes of the block in the two banks. -/
theorem reader_body_magnitudes (s : ReaderState) (samples : List ℚ)
    (hl : s.goert_low.freqBucket.length = 4) (hh : s.goert_high.freqBucket.length = 4)
    (hlows : s.lows.length = 4) (hhighs : s.highs.length = 4) :
    (dtmf_reader_body s (Except.ok samples)).1.lows = blockMagnitudes s.goert_low samples ∧
    (dtmf_reader_body s (Except.ok samples)).1.highs = blockMagnitudes s.goert_high samples := by
  constructor
  · show storeMagnitudes _ s.lows = _
    rw [storeMagnitudes_four _ _ (by rw [block_buckets_length]; exact hl) hlows]
    rfl
  · show storeMagnitudes _ s.highs = _
    rw [storeMagnitudes_four _ _ (by rw [block_buckets_length]; exact hh) hhighs]
    rfl

/-- Claim C10 at the sample rate 44100, where the code departs from it.  `dtmf_reader`
builds both banks with the block length 1024 and reads 1102 samples per block.  The 1024
is the `N` of the coefficients: the bins of the low bank are 16, 18, 20, 22 and those of
the high bank 28, 31, 34, 38, where the block size 1102 would give 17, 19, 21, 24 and 30,
33, 37, 41; and the magnitudes that an iteration stores for a block, whatever its size,
are those of the filters with the coefficients `2 * cos(2 * pi * k / 1024)`. -/
theorem reader_bank_not_block_sized (M : GoMath) (samples : List ℚ) :
    (dtmf_reader_setup M 44100).goert_low.BufferSize = 1024 ∧
    (dtmf_reader_setup M 44100).goert_high.BufferSize = 1024 ∧
    (dtmf_reader_setup M 44100).batch = 1102 ∧
    (dtmf_reader_setup M 44100).goert_low.BufferSize ≠ (dtmf_reader_setup M 44100).batch ∧
    frequencies_low.map (binIndex M 44100 1024) = [16, 18, 20, 22] ∧
    frequencies_low.map (binIndex M 44100 1102) = [17, 19, 21, 24] ∧
    frequencies_high.map (binIndex M 44100 1024) = [28, 31, 34, 38] ∧
    frequencies_high.map (binIndex M 44100 1102) = [30, 33, 37, 41] ∧
    (dtmf_reader_body (dtmf_reader_init M 44100) (Except.ok samples)).1.lows
      = ([16, 18, 20, 22] : List Int).map (fun (k : Int) =>
          filterMagnitude (2 * M.Cos (2 * M.Pi * (k : ℚ) / 1024)) samples) ∧
    (dtmf_reader_body (dtmf_reader_init M 44100) (Except.ok samples)).1.highs
      = ([28, 31, 34, 38] : List Int).map (fun (k : Int) =>
          filterMagnitude (2 * M.Cos (2 * M.Pi * (k : ℚ) / 1024)) samples) := by
  have hb : (dtmf_reader_setup M 44100).batch = 1102 := by
    rw [reader_batch M 44100]; rfl
  have hl : (dtmf_reader_setup M 44100).goert_low.BufferSize = 1024 := rfl
  have hbody := reader_body_magnitudes (dtmf_reader_init M 44100) samples rfl rfl rfl rfl
  have hlow := InitGoertzel_magnitudes M 44100 1024 frequencies_low samples
  have hhigh := InitGoertzel_magnitudes M 44100 1024 frequencies_high samples
  obtain ⟨kl, kl'⟩ := bins_low_44100 M
  obtain ⟨kh, kh'⟩ := bins_high_44100 M
  refine ⟨hl, rfl, hb, by rw [hl, hb]; decide, kl, kl', kh, kh', ?_, ?_⟩
  · rw [hbody.1]
    show blockMagnitudes (InitGoertzel M 44100 1024 frequencies_low) samples = _
    rw [hlow, ← kl, List.map_map]
    apply List.map_congr_left
    intro f _
    simp only [Function.comp]
    norm_num
  · rw [hbody.2]
    show blockMagnitudes (InitGoertzel M 44100 1024 frequencies_high) samples = _
    rw [hhigh, ← kh, List.map_map]
    apply List.map_congr_left
    intro f _
    simp only [Function.comp]
    norm_num

theorem bins_low_192000 (M : GoMath) :
    frequencies_low.map (binIndex M 192000 1024) = [4, 4, 5, 5] := by
  simp only [frequencies_low, List.map_cons, List.map_nil]
  rw [binIndex_eq M 192000 1024 697 4 (by decide) (by norm_num) (by norm_num) (by norm_num),
    binIndex_eq M 192000 1024 770 4 (by decide) (by norm_num) (by norm_num) (by norm_num),
    binIndex_eq M 192000 1024 852 5 (by decide) (by norm_num) (by norm_num) (by norm_num),
    binIndex_eq M 192000 1024 941 5 (by decide) (by norm_num) (by norm_num) (by norm_num)]

theorem filterMagnitude_nonneg (coeff : ℚ) (samples : List ℚ) (hc : |coeff| ≤ 2) :
    0 ≤ filterMagnitude coeff samples :=
  magnitude_nonneg _ _ _ hc

/-- At the sample rate 192000 the low bank of `dtmf_reader` has the bins 4, 4, 5, 5: the
buckets of 697 Hz and 770 Hz have the same coefficient and so the same magnitude for
every block, and no margin between them when that magnitude is not negative. -/
theorem low_bank_192000 (M : GoMath) (samples : List ℚ) :
    blockMagnitudes (dtmf_reader_setup M 192000).goert_low samples
      = [filterMagnitude (2 * M.Cos (2 * M.Pi * 4 / 1024)) samples,
         filterMagnitude (2 * M.Cos (2 * M.Pi * 4 / 1024)) samples,
         filterMagnitude (2 * M.Cos (2 * M.Pi * 5 / 1024)) samples,
         filterMagnitude (2 * M.Cos (2 * M.Pi * 5 / 1024)) samples] ∧
    (|M.Cos (2 * M.Pi * 4 / 1024)| ≤ 1 →
      ¬ ((blockMagnitudes (dtmf_reader_setup M 192000).goert_low samples).getD 0 0
          > 5 / 2 * (blockMagnitudes (dtmf_reader_setup M 192000).goert_low samples).getD 1 0)) := by
  have hk := bins_low_192000 M
  have hmag : blockMagnitudes (dtmf_reader_setup M 192000).goert_low samples
      = ([4, 4, 5, 5] : List Int).map (fun (k : Int) =>
          filterMagnitude (2 * M.Cos (2 * M.Pi * (k : ℚ) / 1024)) samples) := by
    show blockMagnitudes (InitGoertzel M 192000 1024 frequencies_low) samples = _
    rw [InitGoertzel_magnitudes, ← hk, List.map_map]
    apply List.map_congr_left
    intro f _
    simp only [Function.comp]
    norm_num
  have hlist : blockMagnitudes (dtmf_reader_setup M 192000).goert_low samples
      = [filterMagnitude (2 * M.Cos (2 * M.Pi * 4 / 1024)) samples,
         filterMagnitude (2 * M.Cos (2 * M.Pi * 4 / 1024)) samples,
         filterMagnitude (2 * M.Cos (2 * M.Pi * 5 / 1024)) samples,
         filterMagnitude (2 * M.Cos (2 * M.Pi * 5 / 1024)) samples] := by
    rw [hmag]
    simp only [List.map_cons, List.map_nil]
    norm_num
  refine ⟨hlist, ?_⟩
  intro hcos
  rw [hlist]
  simp only [List.getD_cons_zero, List.getD_cons_succ]
  have hc : |2 * M.Cos (2 * M.Pi * 4 / 1024)| ≤ 2 := by
    rw [abs_mul]
    have : |(2 : ℚ)| = 2 := abs_of_pos (by norm_num)
    rw [this]
    linarith
  have hnn := filterMagnitude_nonneg _ samples hc
  linarith

/-- Claim C14 at the sample rate 192000, where the code departs from it.  The low bank that
`dtmf_reader` builds, `InitGoertzel(192000, 1024, [697, 770, 852, 941])`, is fed the block
of 1024 samples `sin(2 * pi * 697 * n / 192000)`.  The targets 697 and 770 are both rounded
to the bin 4, their buckets get the same coefficient, and the magnitude of the bucket of
697 equals that of the bucket of 770: it does not exceed it 2.5 times. -/
theorem tone_margin_fails_same_bin :
    frequencies_low.map (binIndex goMathApprox 192000 1024) = [4, 4, 5, 5] ∧
    (blockMagnitudes (dtmf_reader_setup goMathApprox 192000).goert_low
        (sineBlock goMathApprox 192000 1024 697)).getD 0 0
      = (blockMagnitudes (dtmf_reader_setup goMathApprox 192000).goert_low
        (sineBlock goMathApprox 192000 1024 697)).getD 1 0 ∧
    ¬ ((blockMagnitudes (dtmf_reader_setup goMathApprox 192000).goert_low
          (sineBlock goMathApprox 192000 1024 697)).getD 0 0
        > 5 / 2 * (blockMagnitudes (dtmf_reader_setup goMathApprox 192000).goert_low
          (sineBlock goMathApprox 192000 1024 697)).getD 1 0) := by
  have h := low_bank_192000 goMathApprox (sineBlock goMathApprox 192000 1024 697)
  refine ⟨bins_low_192000 goMathApprox, ?_, ?_⟩
  · rw [h.1]
    rfl
  · apply h.2
    rw [abs_le]
    constructor <;> norm_num [goMathApprox]

end R2D2
